import Mathlib

/-!
Verification of the record normalization, identity-resolution and merge engine
of the lobbyharvest repository (src/lobbyharvest/src/utils/normalize.py),
shallowly embedded over `List Char` strings.

Python strings are modelled as `List Char` (code points); `re`'s `\d`, `\s`,
`\w` classes and `str.upper`/`str.lower` are modelled over ASCII; dict-shaped
records are modelled as a structure of `Option` fields (absent = `none`), the
insertion-ordered `merged` dict as an association list.
-/

set_option maxRecDepth 100000

namespace LobbyHarvest

abbrev Str := List Char

def str (s : String) : Str := s.data

/-- Python `\s` whitespace class (ASCII part), as used by `str.strip` and `re`. -/
def pyWs (c : Char) : Bool :=
  c = ' ' || c = '\t' || c = '\n' || c = '\r' || c = '\x0b' || c = '\x0c'

/-- Python `\w` word-character class (ASCII part): alphanumerics and underscore. -/
def wordChar (c : Char) : Bool :=
  c.isAlpha || c.isDigit || c = '_'

/-- `str.upper` on one character (ASCII). -/
def upperChar (c : Char) : Char :=
  if 97 ≤ c.toNat && c.toNat ≤ 122 then Char.ofNat (c.toNat - 32) else c

/-- `str.lower` on one character (ASCII). -/
def lowerChar (c : Char) : Char :=
  if 65 ≤ c.toNat && c.toNat ≤ 90 then Char.ofNat (c.toNat + 32) else c

/-- `str.strip()`: drop whitespace from both ends. -/
def pyStrip (s : Str) : Str :=
  ((s.dropWhile pyWs).reverse.dropWhile pyWs).reverse

/-- Replace every whitespace character by a plain space (first half of
`re.sub(r'\s+', ' ', s)`). -/
def mapWsToSpace (s : Str) : Str :=
  s.map (fun c => if pyWs c then ' ' else c)

/-- Collapse adjacent spaces (second half of `re.sub(r'\s+', ' ', s)` after
`mapWsToSpace`). -/
def squeeze : Str → Str
  | [] => []
  | [c] => [c]
  | a :: b :: r => if a = ' ' && b = ' ' then squeeze (b :: r) else a :: squeeze (b :: r)

/-- `re.sub(r'\s+', ' ', s).strip()`. -/
def collapseStrip (s : Str) : Str :=
  pyStrip (squeeze (mapWsToSpace s))

/-- The corporate-entity suffix alternatives of the regex in
`normalize_firm_name`, in alternation order. -/
def sfxAlts : List Str :=
  [str "LLC", str "LTD", str "LIMITED", str "INC", str "INCORPORATED",
   str "CORP", str "CORPORATION", str "PLC"]

/-- The candidate for the suffix alternative: the regex' optional `\.?` must
consume a final dot when one is present. -/
def sfxCore (t : Str) : Str :=
  if t.getLast? = some '.' then t.dropLast else t

/-- The part of `sfxCore t` before a matched alternative `alt`. -/
def sfxBase (t : Str) (alt : Str) : Str :=
  (sfxCore t).take ((sfxCore t).length - alt.length)

/-- Match `\s+(ALT)\.?` against the end of `t` (the `$` already accounted for):
if some alternative, optionally followed by one dot, is a suffix of `t` and is
preceded by at least one whitespace character, return `t` with the whole
`\s+ALT\.?` span removed. -/
def findSfx (t : Str) : Option Str :=
  sfxAlts.findSome? fun alt =>
    if alt.isSuffixOf (sfxCore t) then
      match (sfxBase t alt).getLast? with
      | some c => if pyWs c then some ((sfxBase t alt).reverse.dropWhile pyWs).reverse else none
      | none => none
    else none

/-- `re.sub(r'\s+(LLC|LTD|LIMITED|INC|INCORPORATED|CORP|CORPORATION|PLC)\.?$', '', s)`.
Python's `$` (no MULTILINE) matches at the end of the string or just before a
single final newline. -/
def stripSfx (s : Str) : Str :=
  if s.getLast? = some '\n' then
    match findSfx s.dropLast with
    | some base => base ++ ['\n']
    | none => s
  else
    match findSfx s with
    | some base => base
    | none => s

/-- `re.sub(r'[^\w\s]', '', s)`: keep only word characters and whitespace. -/
def filterWordWs (s : Str) : Str :=
  s.filter (fun c => wordChar c || pyWs c)

/-- `normalize_firm_name` from `src/utils/normalize.py`:
empty guard, `upper()`, strip corporate suffix, drop punctuation, collapse
whitespace and trim. -/
def normalize_firm_name (s : Str) : Str :=
  if s = [] then []
  else collapseStrip (filterWordWs (stripSfx (s.map upperChar)))

example : normalize_firm_name (str "FTI Consulting") = str "FTI CONSULTING" := by decide
example : normalize_firm_name (str "Acme,  Inc.") = str "ACME" := by decide
example : normalize_firm_name (str "Acme Ltd Inc") = str "ACME LTD" := by decide
example : normalize_firm_name (str "ACME LTD") = str "ACME" := by decide

/-! ## Dates: `datetime.strptime` / `strftime` for the eight formats of
`normalize_date`, following CPython's `_strptime` regexes: `%Y` is exactly four
digits, `%m`/`%d` are one or two digits in range, `%B` is a case-insensitive
full month name, whitespace in the format matches `\s+`, a match may leave
unconverted trailing data (which then fails the parse), and the resulting
calendar date must be valid with year ≥ 1. -/

structure Date where
  y : Nat
  m : Nat
  d : Nat
deriving DecidableEq

def digitsVal (ds : Str) : Nat :=
  ds.foldl (fun a c => 10 * a + (c.toNat - 48)) 0

/-- `%Y` when followed by a non-digit token or the end: a maximal digit run
that must have length exactly 4. -/
def parseY4 (s : Str) : Option (Nat × Str) :=
  let ds := s.takeWhile Char.isDigit
  if ds.length = 4 then some (digitsVal ds, s.dropWhile Char.isDigit) else none

/-- `%Y` inside `%Y%m%d` (more digits follow): exactly the first four
characters, which must be digits. -/
def parseY4take (s : Str) : Option (Nat × Str) :=
  let ds := s.take 4
  if ds.length = 4 && ds.all Char.isDigit then some (digitsVal ds, s.drop 4) else none

/-- `%m`/`%d` when followed by a non-digit token: a maximal digit run of length
1 (value 1-9) or 2 (value 1-`maxv`). -/
def parseNum2 (maxv : Nat) (s : Str) : Option (Nat × Str) :=
  let ds := s.takeWhile Char.isDigit
  let rest := s.dropWhile Char.isDigit
  if ds.length = 1 then
    if 1 ≤ digitsVal ds then some (digitsVal ds, rest) else none
  else if ds.length = 2 then
    if 1 ≤ digitsVal ds && digitsVal ds ≤ maxv then some (digitsVal ds, rest) else none
  else none

/-- Two-digit alternative of `%m`/`%d` (used inside `%Y%m%d`). -/
def parse2digit (maxv : Nat) (s : Str) : Option (Nat × Str) :=
  match s with
  | a :: b :: r =>
    if a.isDigit && b.isDigit then
      let v := 10 * (a.toNat - 48) + (b.toNat - 48)
      if 1 ≤ v && v ≤ maxv then some (v, r) else none
    else none
  | _ => none

/-- One-digit alternative `[1-9]` of `%m`/`%d` (used inside `%Y%m%d`). -/
def parse1digit (s : Str) : Option (Nat × Str) :=
  match s with
  | a :: r => if a.isDigit && 1 ≤ a.toNat - 48 then some (a.toNat - 48, r) else none
  | [] => none

def expectChar (c : Char) (s : Str) : Option Str :=
  match s with
  | x :: r => if x = c then some r else none
  | [] => none

/-- `\s+`: at least one whitespace character, consumed maximally. -/
def ws1 (s : Str) : Option Str :=
  match s with
  | x :: r => if pyWs x then some (r.dropWhile pyWs) else none
  | [] => none

/-- Full English month names, lowercase, as character lists. -/
def monthNames : List (Nat × Str) :=
  [(1, ['j','a','n','u','a','r','y']),
   (2, ['f','e','b','r','u','a','r','y']),
   (3, ['m','a','r','c','h']),
   (4, ['a','p','r','i','l']),
   (5, ['m','a','y']),
   (6, ['j','u','n','e']),
   (7, ['j','u','l','y']),
   (8, ['a','u','g','u','s','t']),
   (9, ['s','e','p','t','e','m','b','e','r']),
   (10, ['o','c','t','o','b','e','r']),
   (11, ['n','o','v','e','m','b','e','r']),
   (12, ['d','e','c','e','m','b','e','r'])]

/-- Case-insensitive literal match: consume `name` from the front of the
input, lowercasing input characters. -/
def matchCI : Str → Str → Option Str
  | [], s => some s
  | _ :: _, [] => none
  | n :: ns, c :: cs => if lowerChar c = n then matchCI ns cs else none

/-- `%B`: case-insensitive full month name (no English month name is a prefix
of another, so alternation order is irrelevant). -/
def parseB (s : Str) : Option (Nat × Str) :=
  monthNames.findSome? fun p => (matchCI p.2 s).map fun rest => (p.1, rest)

abbrev Ymd := Nat × Nat × Nat

def runYmdDash (s : Str) : Option (Ymd × Str) := do
  let (y, s1) ← parseY4 s
  let s2 ← expectChar '-' s1
  let (m, s3) ← parseNum2 12 s2
  let s4 ← expectChar '-' s3
  let (d, s5) ← parseNum2 31 s4
  some ((y, m, d), s5)

def runDmySlash (s : Str) : Option (Ymd × Str) := do
  let (d, s1) ← parseNum2 31 s
  let s2 ← expectChar '/' s1
  let (m, s3) ← parseNum2 12 s2
  let s4 ← expectChar '/' s3
  let (y, s5) ← parseY4 s4
  some ((y, m, d), s5)

def runMdySlash (s : Str) : Option (Ymd × Str) := do
  let (m, s1) ← parseNum2 12 s
  let s2 ← expectChar '/' s1
  let (d, s3) ← parseNum2 31 s2
  let s4 ← expectChar '/' s3
  let (y, s5) ← parseY4 s4
  some ((y, m, d), s5)

def runDmyDash (s : Str) : Option (Ymd × Str) := do
  let (d, s1) ← parseNum2 31 s
  let s2 ← expectChar '-' s1
  let (m, s3) ← parseNum2 12 s2
  let s4 ← expectChar '-' s3
  let (y, s5) ← parseY4 s4
  some ((y, m, d), s5)

def runYmdSlash (s : Str) : Option (Ymd × Str) := do
  let (y, s1) ← parseY4 s
  let s2 ← expectChar '/' s1
  let (m, s3) ← parseNum2 12 s2
  let s4 ← expectChar '/' s3
  let (d, s5) ← parseNum2 31 s4
  some ((y, m, d), s5)

def runDBY (s : Str) : Option (Ymd × Str) := do
  let (d, s1) ← parseNum2 31 s
  let s2 ← ws1 s1
  let (m, s3) ← parseB s2
  let s4 ← ws1 s3
  let (y, s5) ← parseY4 s4
  some ((y, m, d), s5)

def runBdY (s : Str) : Option (Ymd × Str) := do
  let (m, s1) ← parseB s
  let s2 ← ws1 s1
  let (d, s3) ← parseNum2 31 s2
  let s4 ← expectChar ',' s3
  let s5 ← ws1 s4
  let (y, s6) ← parseY4 s5
  some ((y, m, d), s6)

/-- Day inside `%Y%m%d`: two-digit alternatives are preferred over `[1-9]`. -/
def tryDayCompact (s : Str) : Option (Nat × Str) :=
  (parse2digit 31 s).orElse fun _ => parse1digit s

/-- `%Y%m%d`: the regex engine prefers a two-digit month, backtracking to a
one-digit month only when no day alternative matches after it; the first
char-level match is final even if input remains unconverted. -/
def runYmdCompact (s : Str) : Option (Ymd × Str) := do
  let (y, s1) ← parseY4take s
  match parse2digit 12 s1 with
  | some (m, s2) =>
    match tryDayCompact s2 with
    | some (d, s3) => some ((y, m, d), s3)
    | none =>
      (parse1digit s1).bind fun p =>
        (tryDayCompact p.2).map fun q => ((y, p.1, q.1), q.2)
  | none =>
    (parse1digit s1).bind fun p =>
      (tryDayCompact p.2).map fun q => ((y, p.1, q.1), q.2)

inductive Fmt
  | ymdDash | dmySlash | mdySlash | dmyDash | ymdSlash | dBY | bdY | ymdCompact
deriving DecidableEq

/-- The `date_formats` list of `normalize_date`, in source order. -/
def dateFormats : List Fmt :=
  [.ymdDash, .dmySlash, .mdySlash, .dmyDash, .ymdSlash, .dBY, .bdY, .ymdCompact]

def runFmt : Fmt → Str → Option (Ymd × Str)
  | .ymdDash => runYmdDash
  | .dmySlash => runDmySlash
  | .mdySlash => runMdySlash
  | .dmyDash => runDmyDash
  | .ymdSlash => runYmdSlash
  | .dBY => runDBY
  | .bdY => runBdY
  | .ymdCompact => runYmdCompact

def leapYear (y : Nat) : Bool :=
  y % 4 = 0 && (y % 100 ≠ 0 || y % 400 = 0)

def daysInMonth (y m : Nat) : Nat :=
  if m = 2 then (if leapYear y then 29 else 28)
  else if m = 4 || m = 6 || m = 9 || m = 11 then 30
  else 31

/-- The `datetime` constructor's validity check (`MINYEAR = 1`,
`MAXYEAR = 9999`; the regex already bounds month and day). -/
def validDate (y m d : Nat) : Bool :=
  1 ≤ y && y ≤ 9999 && 1 ≤ m && m ≤ 12 && 1 ≤ d && d ≤ daysInMonth y m

/-- `datetime.strptime(s, fmt)` for one of the eight formats: a regex match,
the unconverted-data check, then date validation; `none` models `ValueError`. -/
def strptimeF (f : Fmt) (s : Str) : Option Date :=
  match runFmt f s with
  | some ((y, m, d), rest) =>
    if rest = [] && validDate y m d then some ⟨y, m, d⟩ else none
  | none => none

def firstParse (s : Str) : Option Date :=
  dateFormats.findSome? (strptimeF · s)

def natDigit (n : Nat) : Char := Nat.digitChar n

/-- glibc `strftime('%Y')`: decimal digits, no zero padding (years parsed by
`%Y` lie in 1..9999, so four branches suffice). -/
def yearStr (y : Nat) : Str :=
  if y < 10 then [natDigit y]
  else if y < 100 then [natDigit (y / 10), natDigit (y % 10)]
  else if y < 1000 then [natDigit (y / 100), natDigit (y / 10 % 10), natDigit (y % 10)]
  else [natDigit (y / 1000), natDigit (y / 100 % 10), natDigit (y / 10 % 10), natDigit (y % 10)]

/-- `strftime('%m')` / `strftime('%d')`: zero-padded to two digits. -/
def pad2 (n : Nat) : Str := [natDigit (n / 10 % 10), natDigit (n % 10)]

/-- `dt.strftime('%Y-%m-%d')`. -/
def renderIso (dt : Date) : Str :=
  yearStr dt.y ++ '-' :: (pad2 dt.m ++ '-' :: pad2 dt.d)

/-- `normalize_date` from `src/utils/normalize.py`: falsy input gives `None`;
otherwise the first of the eight formats that parses the stripped string wins
and the date is re-rendered as ISO; on total failure the original (unstripped)
string is returned. -/
def normalize_date (os : Option Str) : Option Str :=
  match os with
  | none => none
  | some s =>
    if s = [] then none
    else
      match firstParse (pyStrip s) with
      | some dt => some (renderIso dt)
      | none => some s

example : normalize_date (some (str "01/15/2023")) = some (str "2023-01-15") := by decide
example : normalize_date (some (str "15/01/2023")) = some (str "2023-01-15") := by decide
example : normalize_date (some (str "03/04/2023")) = some (str "2023-04-03") := by decide
example : normalize_date (some (str "2023-12-31")) = some (str "2023-12-31") := by decide
example : normalize_date (some (str "not a date")) = some (str "not a date") := by decide
example : normalize_date (some (str "")) = none := by decide
example : normalize_date none = none := by decide
example : normalize_date (some (str " 2023-01-02 ")) = some (str "2023-01-02") := by decide
example : normalize_date (some (str "5 January 2023")) = some (str "2023-01-05") := by decide
example : normalize_date (some (str "January 5, 2023")) = some (str "2023-01-05") := by decide
example : normalize_date (some (str "20230102")) = some (str "2023-01-02") := by decide
example : normalize_date (some (str "2023111")) = some (str "2023-11-01") := by decide
example : normalize_date (some (str "2023-02-29")) = some (str "2023-02-29") := by decide
example : normalize_date (some (str "2024-02-29")) = some (str "2024-02-29") := by decide
example : normalize_date (some (str "31/02/2023")) = some (str "31/02/2023") := by decide

/-! ## MD5 (`hashlib.md5(...).hexdigest()`), over 32-bit words as `Nat % 2^32`. -/

def M32 : Nat := 4294967296

def add32 (a b : Nat) : Nat := (a + b) % M32

def compl32 (a : Nat) : Nat := (M32 - 1) - a

def rotl32 (x c : Nat) : Nat :=
  Nat.lor ((x <<< c) % M32) (x >>> (32 - c))

/-- UTF-8 encoding of one code point (`str.encode()`). -/
def utf8Char (n : Nat) : List Nat :=
  if n < 128 then [n]
  else if n < 2048 then [192 + n / 64, 128 + n % 64]
  else if n < 65536 then [224 + n / 4096, 128 + n / 64 % 64, 128 + n % 64]
  else [240 + n / 262144, 128 + n / 4096 % 64, 128 + n / 64 % 64, 128 + n % 64]

def utf8Encode (s : Str) : List Nat :=
  (s.map (fun c => utf8Char c.toNat)).flatten

def md5K : List Nat :=
  [3614090360, 3905402710, 606105819, 3250441966, 4118548399, 1200080426,
   2821735955, 4249261313, 1770035416, 2336552879, 4294925233, 2304563134,
   1804603682, 4254626195, 2792965006, 1236535329, 4129170786, 3225465664,
   643717713, 3921069994, 3593408605, 38016083, 3634488961, 3889429448,
   568446438, 3275163606, 4107603335, 1163531501, 2850285829, 4243563512,
   1735328473, 2368359562, 4294588738, 2272392833, 1839030562, 4259657740,
   2763975236, 1272893353, 4139469664, 3200236656, 681279174, 3936430074,
   3572445317, 76029189, 3654602809, 3873151461, 530742520, 3299628645,
   4096336452, 1126891415, 2878612391, 4237533241, 1700485571, 2399980690,
   4293915773, 2240044497, 1873313359, 4264355552, 2734768916, 1309151649,
   4149444226, 3174756917, 718787259, 3951481745]

def md5S : List Nat :=
  [7, 12, 17, 22, 7, 12, 17, 22, 7, 12, 17, 22, 7, 12, 17, 22,
   5, 9, 14, 20, 5, 9, 14, 20, 5, 9, 14, 20, 5, 9, 14, 20,
   4, 11, 16, 23, 4, 11, 16, 23, 4, 11, 16, 23, 4, 11, 16, 23,
   6, 10, 15, 21, 6, 10, 15, 21, 6, 10, 15, 21, 6, 10, 15, 21]

def md5F (i b c d : Nat) : Nat :=
  if i < 16 then Nat.lor (Nat.land b c) (Nat.land (compl32 b) d)
  else if i < 32 then Nat.lor (Nat.land d b) (Nat.land (compl32 d) c)
  else if i < 48 then Nat.xor b (Nat.xor c d)
  else Nat.xor c (Nat.lor b (compl32 d))

def md5G (i : Nat) : Nat :=
  if i < 16 then i
  else if i < 32 then (5 * i + 1) % 16
  else if i < 48 then (3 * i + 5) % 16
  else (7 * i) % 16

abbrev Quad := Nat × Nat × Nat × Nat

def md5Round (w : Nat → Nat) (st : Quad) (i : Nat) : Quad :=
  let t := add32 (add32 (add32 st.1 (md5F i st.2.1 st.2.2.1 st.2.2.2)) (md5K.getD i 0)) (w (md5G i))
  (st.2.2.2, add32 st.2.1 (rotl32 t (md5S.getD i 0)), st.2.1, st.2.2.1)

def le32 (chunk : List Nat) (g : Nat) : Nat :=
  chunk.getD (4 * g) 0 + 256 * chunk.getD (4 * g + 1) 0 +
    65536 * chunk.getD (4 * g + 2) 0 + 16777216 * chunk.getD (4 * g + 3) 0

def md5Chunk (st : Quad) (chunk : List Nat) : Quad :=
  let r := (List.range 64).foldl (md5Round (le32 chunk)) st
  (add32 r.1 st.1, add32 r.2.1 st.2.1, add32 r.2.2.1 st.2.2.1, add32 r.2.2.2 st.2.2.2)

def md5Pad (msg : List Nat) : List Nat :=
  let z := (119 - msg.length % 64) % 64
  msg ++ 128 :: List.replicate z 0 ++
    (List.range 8).map (fun i => ((8 * msg.length) % 18446744073709551616) >>> (8 * i) % 256)

def chunksAux : Nat → List Nat → List (List Nat)
  | 0, _ => []
  | _, [] => []
  | fuel + 1, a :: l => (a :: l).take 64 :: chunksAux fuel ((a :: l).drop 64)

def chunks64 (l : List Nat) : List (List Nat) := chunksAux l.length l

def wordBytesLE (w : Nat) : List Nat :=
  [w % 256, w >>> 8 % 256, w >>> 16 % 256, w >>> 24 % 256]

def md5Init : Quad := (1732584193, 4023233417, 2562383102, 271733878)

def byteHex (b : Nat) : Str := [Nat.digitChar (b / 16), Nat.digitChar (b % 16)]

/-- `hashlib.md5(bytes).hexdigest()`. -/
def md5Hex (msg : List Nat) : Str :=
  let st := (chunks64 (md5Pad msg)).foldl md5Chunk md5Init
  ((wordBytesLE st.1 ++ wordBytesLE st.2.1 ++ wordBytesLE st.2.2.1 ++ wordBytesLE st.2.2.2).map byteHex).flatten

/-- `generate_client_id` from `src/utils/normalize.py`. -/
def generate_client_id (firm_name client_name : Str) : Str :=
  let combined := normalize_firm_name firm_name ++ ':' :: normalize_firm_name client_name
  (md5Hex (utf8Encode combined)).take 12

example : md5Hex (utf8Encode (str "abc")) = str "900150983cd24fb0d6963f7d28e17f72" := by decide
example : md5Hex (utf8Encode (str "FTI CONSULTING:ACME CORP")) =
    str "3e68ffd27857da942655b717b1e2be45" := by decide
example : generate_client_id (str "A") (str "B") = str "0a85c030b916" := by decide

/-! ## Records and the merge engine. A raw record is a dict; the fields the
core reads are modelled as `Option Str` (absent or `None` = `none`, matching
`dict.get`). The insertion-ordered `merged` dict is an association list. -/

structure Rec where
  firm_name : Option Str := none
  client_name : Option Str := none
  start_date : Option Str := none
  end_date : Option Str := none
  client_id : Option Str := none
  client_registration_number : Option Str := none
  firm_registration_number : Option Str := none
deriving DecidableEq

instance : Inhabited Rec := ⟨{}⟩

/-- Python truthiness of `record.get(field)`: `None` and `''` are falsy. -/
def truthy (o : Option Str) : Bool :=
  match o with
  | none => false
  | some s => !s.isEmpty

/-- `validate_record` from `src/utils/normalize.py`. -/
def validate_record (record : Rec) : Bool :=
  truthy record.firm_name && truthy record.client_name

/-- The merge key: `generate_client_id(record.get('firm_name', ''), record.get('client_name', ''))`. -/
def keyOf (record : Rec) : Str :=
  generate_client_id (record.firm_name.getD []) (record.client_name.getD [])

/-- Python string `<` (lexicographic on code points). -/
def strLtB : Str → Str → Bool
  | [], [] => false
  | [], _ :: _ => true
  | _ :: _, [] => false
  | a :: x, b :: y => if a < b then true else if a = b then strLtB x y else false

/-- Python `min` on two strings: the second argument wins only when strictly smaller. -/
def pymin (a b : Str) : Str := if strLtB b a then b else a

/-- Python `max` on two strings: the second argument wins only when strictly larger. -/
def pymax (a b : Str) : Str := if strLtB a b then b else a

/-- The `else` branch of `merge_client_records`: reconcile one record into the
existing canonical record with the same key, statement by statement. -/
def mergeInto (existing record : Rec) : Rec :=
  let start1 := normalize_date existing.start_date
  let start2 := normalize_date record.start_date
  let e1 :=
    if truthy start1 && truthy start2 then
      { existing with start_date := some (pymin (start1.getD []) (start2.getD [])) }
    else if truthy start2 then { existing with start_date := start2 }
    else existing
  let end1 := normalize_date e1.end_date
  let end2 := normalize_date record.end_date
  let e2 :=
    if truthy end1 && truthy end2 then
      { e1 with end_date := some (pymax (end1.getD []) (end2.getD [])) }
    else if truthy end2 then { e1 with end_date := end2 }
    else e1
  let e3 :=
    if !truthy e2.client_id && truthy record.client_id then
      { e2 with client_id := record.client_id }
    else e2
  let e4 :=
    if !truthy e3.client_registration_number && truthy record.client_registration_number then
      { e3 with client_registration_number := record.client_registration_number }
    else e3
  if !truthy e4.firm_registration_number && truthy record.firm_registration_number then
    { e4 with firm_registration_number := record.firm_registration_number }
  else e4

/-- The `merged` dict: association list in insertion order. -/
abbrev MState := List (Str × Rec)

def lookupA : MState → Str → Option Rec
  | [], _ => none
  | (k', r) :: t, k => if k' = k then some r else lookupA t k

def containsA (st : MState) (k : Str) : Bool := (lookupA st k).isSome

/-- In-place update of the entry for an existing key. -/
def updateA : MState → Str → (Rec → Rec) → MState
  | [], _, _ => []
  | (k', r) :: t, k, f => if k' = k then (k', f r) :: t else (k', r) :: updateA t k f

/-- One iteration of the `for record in records` loop of `merge_client_records`. -/
def mergeStep (st : MState) (record : Rec) : MState :=
  let k := keyOf record
  if containsA st k then updateA st k (fun e => mergeInto e record)
  else st ++ [(k, record)]

/-- `merge_client_records` from `src/utils/normalize.py`:
fold the records into the keyed dict, then `list(merged.values())`. -/
def merge_client_records (records : List Rec) : List Rec :=
  (records.foldl mergeStep []).map Prod.snd

/-! ## Exception-explicit variants. `ValueError` — the only exception
`datetime.strptime` raises on string input — is threaded in an `Except` monad;
`normalize_date`'s `try/except ValueError: continue` is the only handler. -/

inductive PyErr
  | valueError
deriving DecidableEq

/-- `datetime.strptime`, raising `ValueError` on failure. -/
def strptimeE (f : Fmt) (s : Str) : Except PyErr Date :=
  match strptimeF f s with
  | some d => .ok d
  | none => .error .valueError

/-- The `for fmt in date_formats: try ... except ValueError: continue` loop:
only `ValueError` is caught; `none` means the loop fell through. -/
def tryFormatsE : List Fmt → Str → Except PyErr (Option Date)
  | [], _ => .ok none
  | f :: fs, s =>
    match strptimeE f s with
    | .ok dt => .ok (some dt)
    | .error .valueError => tryFormatsE fs s

/-- `normalize_date` with explicit exception propagation. -/
def normalize_dateE (os : Option Str) : Except PyErr (Option Str) :=
  match os with
  | none => .ok none
  | some s =>
    if s = [] then .ok none
    else do
      let r ← tryFormatsE dateFormats (pyStrip s)
      match r with
      | some dt => .ok (some (renderIso dt))
      | none => .ok (some s)

/-- The reconciliation branch with explicit exception propagation. -/
def mergeIntoE (existing record : Rec) : Except PyErr Rec := do
  let start1 ← normalize_dateE existing.start_date
  let start2 ← normalize_dateE record.start_date
  let e1 :=
    if truthy start1 && truthy start2 then
      { existing with start_date := some (pymin (start1.getD []) (start2.getD [])) }
    else if truthy start2 then { existing with start_date := start2 }
    else existing
  let end1 ← normalize_dateE e1.end_date
  let end2 ← normalize_dateE record.end_date
  let e2 :=
    if truthy end1 && truthy end2 then
      { e1 with end_date := some (pymax (end1.getD []) (end2.getD [])) }
    else if truthy end2 then { e1 with end_date := end2 }
    else e1
  let e3 :=
    if !truthy e2.client_id && truthy record.client_id then
      { e2 with client_id := record.client_id }
    else e2
  let e4 :=
    if !truthy e3.client_registration_number && truthy record.client_registration_number then
      { e3 with client_registration_number := record.client_registration_number }
    else e3
  let e5 :=
    if !truthy e4.firm_registration_number && truthy record.firm_registration_number then
      { e4 with firm_registration_number := record.firm_registration_number }
    else e4
  return e5

def updateAE : MState → Str → (Rec → Except PyErr Rec) → Except PyErr MState
  | [], _, _ => .ok []
  | (k', r) :: t, k, f =>
    if k' = k then do
      let r' ← f r
      return (k', r') :: t
    else do
      let t' ← updateAE t k f
      return (k', r) :: t'

def mergeStepE (st : MState) (record : Rec) : Except PyErr MState :=
  let k := keyOf record
  if containsA st k then updateAE st k (fun e => mergeIntoE e record)
  else .ok (st ++ [(k, record)])

/-- `merge_client_records` with explicit exception propagation. -/
def merge_client_recordsE (records : List Rec) : Except PyErr (List Rec) := do
  let st ← records.foldlM mergeStepE []
  return st.map Prod.snd

/-! Sample records used by concrete evaluations. -/

/-- First record of the end-to-end scenario. -/
def recFTI1 : Rec :=
  { firm_name := some (str "FTI Consulting"), client_name := some (str "Acme Corp"),
    start_date := some (str "01/15/2023") }

/-- Second record of the end-to-end scenario. -/
def recFTI2 : Rec :=
  { firm_name := some (str "FTI CONSULTING"), client_name := some (str "ACME CORP"),
    end_date := some (str "2023-12-31"),
    client_registration_number := some (str "C-99") }

example : merge_client_records [recFTI1, recFTI2] =
    [{ recFTI1 with end_date := some (str "2023-12-31"),
                    client_registration_number := some (str "C-99") }] := by decide

/-- A record whose `start_date` is a non-empty string that matches no date
format (so `normalize_date` keeps it, truthy) and sorts before ISO dates. -/
def recBad1 : Rec :=
  { firm_name := some (str "A"), client_name := some (str "B"),
    start_date := some (str "!!bad") }

/-- A record (same key as `recBad1`) whose `start_date` is a valid ISO date. -/
def recBad2 : Rec :=
  { firm_name := some (str "A"), client_name := some (str "B"),
    start_date := some (str "2023-06-01") }

/-- Permutation counterexample, first record: a parseable but non-ISO
`start_date` and one identifier. -/
def recP1 : Rec :=
  { firm_name := some (str "A"), client_name := some (str "B"),
    start_date := some (str "15/01/2023"),
    client_registration_number := some (str "X") }

/-- Permutation counterexample, second record: same key, no `start_date`, a
conflicting identifier. -/
def recP2 : Rec :=
  { firm_name := some (str "A"), client_name := some (str "B"),
    client_registration_number := some (str "Y") }

/-- The reconciled fields of a record (everything the merge reconciles;
the retained surface `firm_name`/`client_name` text is dropped). -/
structure PRec where
  start_date : Option Str
  end_date : Option Str
  client_id : Option Str
  client_registration_number : Option Str
  firm_registration_number : Option Str
deriving DecidableEq

def projR (r : Rec) : PRec :=
  ⟨r.start_date, r.end_date, r.client_id,
   r.client_registration_number, r.firm_registration_number⟩

/-- The identity key and the reconciled fields of an output record — the tuple
the spec calls order-independent. -/
def projTuple (r : Rec) : Str × PRec := (keyOf r, projR r)

def recX123 : Rec :=
  { firm_name := some (str "A"), client_name := some (str "B"),
    client_registration_number := some (str "X123") }

def recNoCrn : Rec :=
  { firm_name := some (str "A"), client_name := some (str "B") }

def recY456 : Rec :=
  { firm_name := some (str "A"), client_name := some (str "B"),
    client_registration_number := some (str "Y456") }

/-! ## Per-field characterization of the reconciliation step. -/

/-- Date reconciliation of `merge_client_records`, per field: normalize both
sides, combine with `f` (`pymin` for `start_date`, `pymax` for `end_date`)
when both normalized values are truthy, adopt the incoming normalized value
when only it is truthy, and otherwise keep the stored value unchanged. -/
def dcomb (f : Str → Str → Str) (t s : Option Str) : Option Str :=
  let s1 := normalize_date t
  let s2 := normalize_date s
  if truthy s1 && truthy s2 then some (f (s1.getD []) (s2.getD []))
  else if truthy s2 then s2
  else t

/-- Identifier reconciliation of `merge_client_records`, per field: fill only
when the stored value is falsy and the incoming one truthy. -/
def icomb (t s : Option Str) : Option Str :=
  if !truthy t && truthy s then s else t

/-- The reconciliation step on projected (reconciled-fields-only) records. -/
def pmerge (p : PRec) (r : Rec) : PRec :=
  ⟨dcomb pymin p.start_date r.start_date,
   dcomb pymax p.end_date r.end_date,
   icomb p.client_id r.client_id,
   icomb p.client_registration_number r.client_registration_number,
   icomb p.firm_registration_number r.firm_registration_number⟩

/-- The merge step on the abstract state: a function from keys to projected
records. -/
def pstep (g : Str → Option PRec) (r : Rec) : Str → Option PRec :=
  fun k =>
    if k = keyOf r then
      match g (keyOf r) with
      | none => some (projR r)
      | some p => some (pmerge p r)
    else g k

/-- An identifier field value is absent or non-empty (never the empty
string). -/
def idOk (o : Option Str) : Prop := o = none ∨ truthy o = true

/-- The per-record conditions of the amended order-independence claim: both
dates are fixed points of `normalize_date` (absent, already-ISO, or
unparseable-and-kept strings — never the empty string), and identifier fields
are absent or non-empty. -/
def recOk (r : Rec) : Prop :=
  normalize_date r.start_date = r.start_date ∧
  normalize_date r.end_date = r.end_date ∧
  idOk r.client_id ∧ idOk r.client_registration_number ∧ idOk r.firm_registration_number

/-- Two same-key records never provide conflicting non-empty values for the
same identifier field. -/
def idAgree (x y : Rec) : Prop :=
  (truthy x.client_id = true → truthy y.client_id = true →
    x.client_id = y.client_id) ∧
  (truthy x.client_registration_number = true →
    truthy y.client_registration_number = true →
    x.client_registration_number = y.client_registration_number) ∧
  (truthy x.firm_registration_number = true →
    truthy y.firm_registration_number = true →
    x.firm_registration_number = y.firm_registration_number)

instance (r : Rec) : Decidable (recOk r) := by
  unfold recOk idOk
  infer_instance

instance (x y : Rec) : Decidable (idAgree x y) := by
  unfold idAgree
  infer_instance

/-- The stored keys of the `merged` dict. -/
def keysOf (st : MState) : List Str := st.map Prod.fst

/-- The contents of the `merged` dict viewed abstractly: each key maps to the
projected (reconciled-fields-only) part of its stored record. -/
def gOf (st : MState) : Str → Option PRec := fun k => (lookupA st k).map projR

/-- The projected record stored at `k`, defaulting to the all-absent record. -/
def projOf (st : MState) (k : Str) : PRec :=
  (gOf st k).getD ⟨none, none, none, none, none⟩

/-- Invariant of the `merged` dict: stored keys are distinct and every entry
is stored under the key computed from its own record. -/
def goodState (st : MState) : Prop :=
  (keysOf st).Nodup ∧ ∀ p ∈ st, p.1 = keyOf p.2

/-- A pair of compliant same-key records: ISO dates, agreeing non-empty
identifier values. -/
def recQ1 : Rec :=
  { firm_name := some (str "A"), client_name := some (str "B"),
    start_date := some (str "2023-01-01"),
    client_registration_number := some (str "Z9") }

def recQ2 : Rec :=
  { firm_name := some (str "A"), client_name := some (str "B"),
    end_date := some (str "2023-12-31"),
    client_registration_number := some (str "Z9") }

/-- Lowercase hexadecimal digit. -/
def isHexChar (c : Char) : Bool := c.isDigit || ('a' ≤ c && c ≤ 'f')

theorem mergeInto_eq (e r : Rec) :
    mergeInto e r =
      { e with
        start_date := dcomb pymin e.start_date r.start_date,
        end_date := dcomb pymax e.end_date r.end_date,
        client_id := icomb e.client_id r.client_id,
        client_registration_number :=
          icomb e.client_registration_number r.client_registration_number,
        firm_registration_number :=
          icomb e.firm_registration_number r.firm_registration_number } := by
  simp only [mergeInto, dcomb, icomb, apply_ite Rec.start_date, apply_ite Rec.end_date,
    apply_ite Rec.client_id, apply_ite Rec.client_registration_number,
    apply_ite Rec.firm_registration_number, ite_self]
  repeat' split
  all_goals rfl

/-- Two records with the same key merge to a single reconciled record. -/
theorem merge_two (e r : Rec) (hk : keyOf e = keyOf r) :
    merge_client_records [e, r] = [mergeInto e r] := by
  simp [merge_client_records, mergeStep, containsA, lookupA, updateA, hk]

/-! ## Auxiliary facts about the hex digest. -/

theorem digitChar_isHexChar (n : Nat) (h : n < 16) : isHexChar (Nat.digitChar n) = true := by
  interval_cases n <;> decide

theorem wordBytesLE_lt (w : Nat) : ∀ b ∈ wordBytesLE w, b < 256 := by
  intro b hb
  simp [wordBytesLE] at hb
  rcases hb with rfl | rfl | rfl | rfl <;> omega

theorem mem_byteHexFlat {c : Char} {bs : List Nat} (hb : ∀ b ∈ bs, b < 256)
    (hc : c ∈ (bs.map byteHex).flatten) : isHexChar c = true := by
  rw [List.mem_flatten] at hc
  obtain ⟨l, hl, hcl⟩ := hc
  rw [List.mem_map] at hl
  obtain ⟨b, hbs, rfl⟩ := hl
  have hb' := hb b hbs
  simp [byteHex] at hcl
  rcases hcl with rfl | rfl
  · exact digitChar_isHexChar _ (by omega)
  · exact digitChar_isHexChar _ (by omega)

theorem md5Hex_length (m : List Nat) : (md5Hex m).length = 32 := by
  simp [md5Hex, wordBytesLE, byteHex]

theorem md5Hex_isHex (m : List Nat) : ∀ c ∈ md5Hex m, isHexChar c = true := by
  intro c hc
  unfold md5Hex at hc
  refine mem_byteHexFlat ?_ hc
  intro b hb
  simp only [List.mem_append] at hb
  rcases hb with ((h | h) | h) | h <;> exact wordBytesLE_lt _ _ h

/-! ## Claim theorems. -/

/-- C2, counterexample: on the end-to-end scenario input the merged record's
`start_date` is not the claimed `"2023-01-15"` — the first-seen raw string is
retained because the second record supplies no `start_date`, and the code only
normalizes dates when reconciling a conflict. -/
theorem c2_start_not_normalized :
    (merge_client_records [recFTI1, recFTI2]).map Rec.start_date ≠
      [some (str "2023-01-15")] := by decide

/-- C2, amended: the scenario yields exactly one canonical record, with
`start_date` kept as the raw first-seen `"01/15/2023"`, reconciled
`end_date = "2023-12-31"` and `client_registration_number = "C-99"`. -/
theorem c2_merge_scenario :
    merge_client_records [recFTI1, recFTI2] =
      [{ firm_name := some (str "FTI Consulting"),
         client_name := some (str "Acme Corp"),
         start_date := some (str "01/15/2023"),
         end_date := some (str "2023-12-31"),
         client_id := none,
         client_registration_number := some (str "C-99"),
         firm_registration_number := none }] := by decide

/-- C7: `validate_record` is true iff `firm_name` and `client_name` are both
present and non-empty; in particular the two example records of the claim. -/
theorem c7_validate_record :
    (∀ r : Rec, validate_record r = true ↔
      (truthy r.firm_name = true ∧ truthy r.client_name = true)) ∧
    validate_record { firm_name := some (str ""), client_name := some (str "X") } = false ∧
    validate_record { firm_name := some (str "X"), client_name := some (str "Y") } = true := by
  refine ⟨fun r => ?_, by decide, by decide⟩
  simp [validate_record]

/-- C4, counterexample: `recBad2`'s `start_date` normalizes to a valid ISO
date while `recBad1`'s does not (it is returned unchanged, hence truthy), yet
the merge does not adopt `recBad2`'s date: the code compares with `min`
whenever both normalized values are truthy, and `"!!bad" < "2023-06-01"`. -/
theorem c4_unparseable_beats_iso :
    normalize_date recBad2.start_date = some (str "2023-06-01") ∧
    strptimeF .ymdDash (str "2023-06-01") = some ⟨2023, 6, 1⟩ ∧
    normalize_date recBad1.start_date = some (str "!!bad") ∧
    strptimeF .ymdDash (str "!!bad") = none ∧
    (merge_client_records [recBad1, recBad2]).map Rec.start_date =
      [some (str "!!bad")] := by decide

/-- C4, amended: folding `r` into an existing same-key record reconciles
`start_date` by `dcomb pymin` and `end_date` by `dcomb pymax`: when both
normalized values are truthy the lexicographically smaller (resp. larger)
normalized value is kept — unparseable non-empty strings normalize to
themselves and participate in the comparison — when only `r`'s is truthy it
is adopted, and otherwise the existing stored value is unchanged. -/
theorem c4_date_reconciliation (e r : Rec) (hk : keyOf e = keyOf r) :
    (merge_client_records [e, r]).map Rec.start_date =
      [dcomb pymin e.start_date r.start_date] ∧
    (merge_client_records [e, r]).map Rec.end_date =
      [dcomb pymax e.end_date r.end_date] := by
  rw [merge_two e r hk, mergeInto_eq]
  exact ⟨rfl, rfl⟩

/-- Witness for `c4_date_reconciliation` at the counterexample records. -/
theorem c4_date_reconciliation_witness :
    keyOf recBad1 = keyOf recBad2 ∧
    (merge_client_records [recBad1, recBad2]).map Rec.start_date =
      [dcomb pymin recBad1.start_date recBad2.start_date] :=
  ⟨by decide, (c4_date_reconciliation recBad1 recBad2 (by decide)).1⟩

/-- C8: for each identifier field, merging a later same-key record adopts the
later value exactly when the existing value is falsy and the later one truthy,
and never otherwise. -/
theorem c8_identifier_fill (e r : Rec) (hk : keyOf e = keyOf r) :
    ∀ sel ∈ [Rec.client_id, Rec.client_registration_number, Rec.firm_registration_number],
      (merge_client_records [e, r]).map sel =
        [if truthy (sel e) = false ∧ truthy (sel r) = true then sel r else sel e] := by
  rw [merge_two e r hk, mergeInto_eq]
  intro sel hsel
  simp only [List.mem_cons, List.not_mem_nil, or_false] at hsel
  rcases hsel with rfl | rfl | rfl
  · simp [icomb, Bool.and_eq_true]
  · simp [icomb, Bool.and_eq_true]
  · simp [icomb, Bool.and_eq_true]

/-- Witness for `c8_identifier_fill`: a later `None` never overwrites
`"X123"`, and `"Y456"` fills a missing field. -/
theorem c8_identifier_fill_witness :
    ((merge_client_records [recX123, recNoCrn]).map Rec.client_registration_number =
        [some (str "X123")]) ∧
    ((merge_client_records [recNoCrn, recY456]).map Rec.client_registration_number =
        [some (str "Y456")]) := by
  constructor
  · rw [c8_identifier_fill recX123 recNoCrn (by decide) Rec.client_registration_number
      (by simp)]
    decide
  · rw [c8_identifier_fill recNoCrn recY456 (by decide) Rec.client_registration_number
      (by simp)]
    decide

/-- C6: the identity key is a pure function of the normalized names
(congruence under `normalize_firm_name`), and is the 12-character truncation
of the 32-character lowercase hex digest of `"{normalized_firm}:{normalized_client}"`. -/
theorem c6_identity_key :
    (∀ f1 c1 f2 c2 : Str, normalize_firm_name f1 = normalize_firm_name f2 →
        normalize_firm_name c1 = normalize_firm_name c2 →
        generate_client_id f1 c1 = generate_client_id f2 c2) ∧
    (∀ f c : Str, (generate_client_id f c).length = 12 ∧
      (∀ ch ∈ generate_client_id f c, isHexChar ch = true) ∧
      generate_client_id f c =
        (md5Hex (utf8Encode (normalize_firm_name f ++ ':' :: normalize_firm_name c))).take 12) := by
  constructor
  · intro f1 c1 f2 c2 hf hc
    unfold generate_client_id
    rw [hf, hc]
  · intro f c
    refine ⟨?_, ?_, rfl⟩
    · simp [generate_client_id, List.length_take, md5Hex_length]
    · intro ch hch
      exact md5Hex_isHex _ ch (List.take_subset _ _ hch)

/-- Witness for `c6_identity_key`: two spellings of the same firm/client pair
normalize identically, hence get the same key. -/
theorem c6_identity_key_witness :
    normalize_firm_name (str "Acme Inc") = normalize_firm_name (str "ACME") ∧
    normalize_firm_name (str "Client, LLC") = normalize_firm_name (str "CLIENT") ∧
    generate_client_id (str "Acme Inc") (str "Client, LLC") =
      generate_client_id (str "ACME") (str "CLIENT") :=
  ⟨by decide, by decide, c6_identity_key.1 _ _ _ _ (by decide) (by decide)⟩

/-- C5, amended: `None`/empty input yields `None`; a non-empty string on which
all eight formats fail is returned unchanged — the *original* string, not the
trimmed one; the claim's particular examples hold. -/
theorem c5_unparseable_preserved :
    (∀ s : Str, s ≠ [] → (∀ f ∈ dateFormats, strptimeF f (pyStrip s) = none) →
      normalize_date (some s) = some s) ∧
    normalize_date none = none ∧
    normalize_date (some (str "")) = none ∧
    normalize_date (some (str "not a date")) = some (str "not a date") := by
  refine ⟨fun s hne hall => ?_, rfl, by decide, by decide⟩
  have hfp : firstParse (pyStrip s) = none := by
    unfold firstParse
    rw [List.findSome?_eq_none_iff]
    exact hall
  simp only [normalize_date]
  rw [if_neg hne, hfp]

/-- Witness for `c5_unparseable_preserved` at `"not a date"`. -/
theorem c5_unparseable_preserved_witness :
    (str "not a date" ≠ ([] : Str)) ∧
    (∀ f ∈ dateFormats, strptimeF f (pyStrip (str "not a date")) = none) ∧
    normalize_date (some (str "not a date")) = some (str "not a date") :=
  ⟨by decide, by decide, (c5_unparseable_preserved).1 _ (by decide) (by decide)⟩

/-- C3, counterexample: the name normalizer is not idempotent — stripping the
last corporate suffix can expose another one, so a second application strips
again: `"Acme Ltd Inc"` normalizes to `"ACME LTD"`, which normalizes to
`"ACME"`. -/
theorem c3_not_idempotent :
    normalize_firm_name (normalize_firm_name (str "Acme Ltd Inc")) ≠
      normalize_firm_name (str "Acme Ltd Inc") := by decide

/-- C5, counterexample: on a non-empty unparseable string the original is
returned *untrimmed*, not trimmed as claimed: `normalize_date(" x ")`
returns `" x "`, not `" x ".strip()`. -/
theorem c5_fallback_not_trimmed :
    normalize_date (some (str " x ")) ≠ some (pyStrip (str " x ")) := by decide

/-- C1, counterexample: the two orderings of `[recP1, recP2]` are permutations
of each other, yet the merged outputs differ on reconciled fields — one keeps
the raw `start_date` `"15/01/2023"` and identifier `"X"`, the other the
normalized `"2023-01-15"` and identifier `"Y"`. -/
theorem c1_not_perm_invariant :
    List.Perm [recP1, recP2] [recP2, recP1] ∧
    ¬ List.Perm ((merge_client_records [recP1, recP2]).map projTuple)
        ((merge_client_records [recP2, recP1]).map projTuple) := by
  constructor
  · exact List.Perm.swap _ _ _
  · intro hp
    have h1 : (merge_client_records [recP1, recP2]).map projTuple =
        [projTuple recP1] := by decide
    have h2 : (merge_client_records [recP2, recP1]).map projTuple =
        [projTuple { recP2 with start_date := some (str "2023-01-15") }] := by decide
    rw [h1, h2] at hp
    have heq : [projTuple recP1] =
        [projTuple { recP2 with start_date := some (str "2023-01-15") }] :=
      List.perm_singleton.mp hp
    exact absurd heq (by decide)

/-! ## Character and digit-string facts used for date round-trips. -/

theorem natDigit_isDigit (k : Nat) (h : k < 10) : (natDigit k).isDigit = true := by
  interval_cases k <;> decide

theorem natDigit_not_ws (k : Nat) (h : k < 10) : pyWs (natDigit k) = false := by
  interval_cases k <;> decide

theorem natDigit_toNat (k : Nat) (h : k < 10) : (natDigit k).toNat = 48 + k := by
  interval_cases k <;> decide

theorem lowerChar_natDigit (k : Nat) (h : k < 10) : lowerChar (natDigit k) = natDigit k := by
  interval_cases k <;> decide

theorem takeWhile_all {p : Char → Bool} : ∀ {l : Str}, (∀ c ∈ l, p c = true) →
    l.takeWhile p = l
  | [], _ => rfl
  | a :: t, h => by
    have ha := h a (List.mem_cons_self a t)
    simp only [List.takeWhile_cons, ha, if_true]
    exact congrArg (a :: ·) (takeWhile_all fun c hc => h c (List.mem_cons_of_mem a hc))

theorem dropWhile_all {p : Char → Bool} : ∀ {l : Str}, (∀ c ∈ l, p c = true) →
    l.dropWhile p = []
  | [], _ => rfl
  | a :: t, h => by
    have ha := h a (List.mem_cons_self a t)
    simp only [List.dropWhile_cons, ha, if_true]
    exact dropWhile_all fun c hc => h c (List.mem_cons_of_mem a hc)

theorem takeWhile_append_cons {p : Char → Bool} {c : Char} (hc : p c = false) :
    ∀ {l : Str} (r : Str), (∀ x ∈ l, p x = true) → (l ++ c :: r).takeWhile p = l
  | [], r, _ => by simp [List.takeWhile_cons, hc]
  | a :: t, r, h => by
    have ha := h a (List.mem_cons_self a t)
    simp only [List.cons_append, List.takeWhile_cons, ha, if_true]
    exact congrArg (a :: ·) (takeWhile_append_cons hc r fun x hx => h x (List.mem_cons_of_mem a hx))

theorem dropWhile_append_cons {p : Char → Bool} {c : Char} (hc : p c = false) :
    ∀ {l : Str} (r : Str), (∀ x ∈ l, p x = true) → (l ++ c :: r).dropWhile p = c :: r
  | [], r, _ => by simp [List.dropWhile_cons, hc]
  | a :: t, r, h => by
    have ha := h a (List.mem_cons_self a t)
    simp only [List.cons_append, List.dropWhile_cons, ha, if_true]
    exact dropWhile_append_cons hc r fun x hx => h x (List.mem_cons_of_mem a hx)

theorem dropWhile_none {p : Char → Bool} : ∀ {l : Str}, (∀ c ∈ l, p c = false) →
    l.dropWhile p = l
  | [], _ => rfl
  | a :: t, h => by
    have ha := h a (List.mem_cons_self a t)
    simp [List.dropWhile_cons, ha]

theorem pyStrip_no_ws {s : Str} (h : ∀ c ∈ s, pyWs c = false) : pyStrip s = s := by
  unfold pyStrip
  rw [dropWhile_none h, dropWhile_none (by intro c hc; exact h c (List.mem_reverse.mp hc)),
    List.reverse_reverse]

theorem pad2_all_digits (n : Nat) : ∀ c ∈ pad2 n, c.isDigit = true := by
  intro c hc
  simp only [pad2, List.mem_cons, List.not_mem_nil, or_false] at hc
  rcases hc with rfl | rfl
  · exact natDigit_isDigit _ (Nat.mod_lt _ (by omega))
  · exact natDigit_isDigit _ (Nat.mod_lt _ (by omega))

theorem digitsVal_pad2 (n : Nat) (h : n < 100) : digitsVal (pad2 n) = n := by
  simp only [digitsVal, pad2, List.foldl]
  rw [natDigit_toNat _ (Nat.mod_lt _ (by omega)), natDigit_toNat _ (Nat.mod_lt _ (by omega))]
  omega

theorem yearStr_all_digits (y : Nat) (h : y ≤ 9999) : ∀ c ∈ yearStr y, c.isDigit = true := by
  intro c hc
  unfold yearStr at hc
  split at hc
  · simp only [List.mem_cons, List.not_mem_nil, or_false] at hc
    subst hc; exact natDigit_isDigit _ (by omega)
  · split at hc
    · simp only [List.mem_cons, List.not_mem_nil, or_false] at hc
      rcases hc with rfl | rfl <;> exact natDigit_isDigit _ (by omega)
    · split at hc
      · simp only [List.mem_cons, List.not_mem_nil, or_false] at hc
        rcases hc with rfl | rfl | rfl <;> exact natDigit_isDigit _ (by omega)
      · simp only [List.mem_cons, List.not_mem_nil, or_false] at hc
        rcases hc with rfl | rfl | rfl | rfl <;> exact natDigit_isDigit _ (by omega)

theorem digitsVal_yearStr (y : Nat) (h : y ≤ 9999) : digitsVal (yearStr y) = y := by
  unfold yearStr
  split
  · rename_i h1
    simp only [digitsVal, List.foldl]
    rw [natDigit_toNat _ (by omega)]
    omega
  · split
    · rename_i h1 h2
      simp only [digitsVal, List.foldl]
      rw [natDigit_toNat _ (by omega), natDigit_toNat _ (by omega)]
      omega
    · split
      · rename_i h1 h2 h3
        simp only [digitsVal, List.foldl]
        rw [natDigit_toNat _ (by omega), natDigit_toNat _ (by omega),
          natDigit_toNat _ (by omega)]
        omega
      · rename_i h1 h2 h3
        simp only [digitsVal, List.foldl]
        rw [natDigit_toNat _ (by omega), natDigit_toNat _ (by omega),
          natDigit_toNat _ (by omega), natDigit_toNat _ (by omega)]
        omega

theorem yearStr_length_hi (y : Nat) (h1 : 1000 ≤ y) : (yearStr y).length = 4 := by
  unfold yearStr
  rw [if_neg (by omega), if_neg (by omega), if_neg (by omega)]
  rfl

theorem validDate_bounds {y m d : Nat} (h : validDate y m d = true) :
    1 ≤ y ∧ y ≤ 9999 ∧ 1 ≤ m ∧ m ≤ 12 ∧ 1 ≤ d ∧ d ≤ 31 := by
  simp only [validDate, Bool.and_eq_true, decide_eq_true_eq] at h
  obtain ⟨⟨⟨⟨⟨hy1, hy2⟩, hm1⟩, hm2⟩, hd1⟩, hd2⟩ := h
  refine ⟨hy1, hy2, hm1, hm2, hd1, ?_⟩
  have : daysInMonth y m ≤ 31 := by
    unfold daysInMonth
    split
    · split <;> omega
    · split <;> omega
  omega

theorem pad2_no_ws (n : Nat) : ∀ c ∈ pad2 n, pyWs c = false := by
  intro c hc
  simp only [pad2, List.mem_cons, List.not_mem_nil, or_false] at hc
  rcases hc with rfl | rfl
  · exact natDigit_not_ws _ (Nat.mod_lt _ (by omega))
  · exact natDigit_not_ws _ (Nat.mod_lt _ (by omega))

theorem yearStr_no_ws (y : Nat) (h : y ≤ 9999) : ∀ c ∈ yearStr y, pyWs c = false := by
  intro c hc
  unfold yearStr at hc
  split at hc
  · simp only [List.mem_cons, List.not_mem_nil, or_false] at hc
    subst hc; exact natDigit_not_ws _ (by omega)
  · split at hc
    · simp only [List.mem_cons, List.not_mem_nil, or_false] at hc
      rcases hc with rfl | rfl <;> exact natDigit_not_ws _ (by omega)
    · split at hc
      · simp only [List.mem_cons, List.not_mem_nil, or_false] at hc
        rcases hc with rfl | rfl | rfl <;> exact natDigit_not_ws _ (by omega)
      · simp only [List.mem_cons, List.not_mem_nil, or_false] at hc
        rcases hc with rfl | rfl | rfl | rfl <;> exact natDigit_not_ws _ (by omega)

theorem renderIso_no_ws (dt : Date) (h : dt.y ≤ 9999) :
    ∀ c ∈ renderIso dt, pyWs c = false := by
  intro c hc
  unfold renderIso at hc
  simp only [List.mem_append, List.mem_cons] at hc
  rcases hc with h1 | rfl | h1
  · exact yearStr_no_ws _ h _ h1
  · decide
  · rcases h1 with h1 | rfl | h1
    · exact pad2_no_ws _ _ h1
    · decide
    · exact pad2_no_ws _ _ h1

theorem renderIso_ne_nil (dt : Date) : renderIso dt ≠ [] := by
  unfold renderIso yearStr
  split
  · simp
  · split
    · simp
    · split <;> simp

theorem strptimeF_valid {f : Fmt} {s : Str} {dt : Date} (h : strptimeF f s = some dt) :
    validDate dt.y dt.m dt.d = true := by
  unfold strptimeF at h
  cases hr : runFmt f s with
  | none => rw [hr] at h; cases h
  | some p =>
    rw [hr] at h
    obtain ⟨⟨y, m, d⟩, rest⟩ := p
    dsimp only at h
    split at h
    · rename_i hcond
      injection h with h'
      subst h'
      simp only [Bool.and_eq_true] at hcond
      exact hcond.2
    · cases h

theorem firstParse_valid {s : Str} {dt : Date} (h : firstParse s = some dt) :
    validDate dt.y dt.m dt.d = true := by
  unfold firstParse at h
  obtain ⟨f, hf, hsome⟩ := List.exists_of_findSome?_eq_some h
  exact strptimeF_valid hsome

theorem strptimeF_ymdDash_render (dt : Date) (hv : validDate dt.y dt.m dt.d = true)
    (hy : 1000 ≤ dt.y) : strptimeF .ymdDash (renderIso dt) = some dt := by
  obtain ⟨hy1, hy2, hm1, hm2, hd1, hd2⟩ := validDate_bounds hv
  have hyd := yearStr_all_digits dt.y hy2
  have hmd := pad2_all_digits dt.m
  have hdd := pad2_all_digits dt.d
  have hdash : Char.isDigit '-' = false := by decide
  have e1 : (renderIso dt).takeWhile Char.isDigit = yearStr dt.y := by
    unfold renderIso; exact takeWhile_append_cons hdash _ hyd
  have e2 : (renderIso dt).dropWhile Char.isDigit =
      '-' :: (pad2 dt.m ++ '-' :: pad2 dt.d) := by
    unfold renderIso; exact dropWhile_append_cons hdash _ hyd
  have p1 : parseY4 (renderIso dt) =
      some (dt.y, '-' :: (pad2 dt.m ++ '-' :: pad2 dt.d)) := by
    unfold parseY4
    simp only [e1, e2]
    rw [if_pos (yearStr_length_hi dt.y hy), digitsVal_yearStr dt.y hy2]
  have p3 : parseNum2 12 (pad2 dt.m ++ '-' :: pad2 dt.d) =
      some (dt.m, '-' :: pad2 dt.d) := by
    unfold parseNum2
    simp only [takeWhile_append_cons hdash _ hmd, dropWhile_append_cons hdash _ hmd]
    rw [if_neg (by simp [pad2]), if_pos (by simp [pad2]),
      if_pos (by simp [digitsVal_pad2 dt.m (by omega), hm1, hm2]),
      digitsVal_pad2 dt.m (by omega)]
  have p5 : parseNum2 31 (pad2 dt.d) = some (dt.d, []) := by
    unfold parseNum2
    simp only [takeWhile_all hdd, dropWhile_all hdd]
    rw [if_neg (by simp [pad2]), if_pos (by simp [pad2]),
      if_pos (by simp [digitsVal_pad2 dt.d (by omega), hd1, hd2]),
      digitsVal_pad2 dt.d (by omega)]
  have hrun : runYmdDash (renderIso dt) = some ((dt.y, dt.m, dt.d), []) := by
    simp [runYmdDash, p1, p3, p5, expectChar]
  show strptimeF .ymdDash (renderIso dt) = some dt
  unfold strptimeF
  rw [show runFmt .ymdDash = runYmdDash from rfl, hrun]
  dsimp only
  rw [if_pos (by simp [hv])]

theorem firstParse_render_hi (dt : Date) (hv : validDate dt.y dt.m dt.d = true)
    (hy : 1000 ≤ dt.y) : firstParse (renderIso dt) = some dt := by
  unfold firstParse dateFormats
  rw [List.findSome?_cons]
  rw [strptimeF_ymdDash_render dt hv hy]

/-! ## Every format fails on a rendered date whose year has fewer than four
digits (glibc does not zero-pad `%Y`, and `strptime`'s `%Y` wants exactly
four digits). -/

theorem yearStr_length_lo (y : Nat) (h : y < 1000) : (yearStr y).length ≤ 3 := by
  unfold yearStr
  rcases Nat.lt_or_ge y 10 with h1 | h1
  · rw [if_pos h1]; simp
  · rcases Nat.lt_or_ge y 100 with h2 | h2
    · rw [if_neg (by omega), if_pos h2]; simp
    · rw [if_neg (by omega), if_neg (by omega), if_pos h]; simp

theorem yearStr_head (y : Nat) (hy : y ≤ 9999) :
    ∃ k t, k < 10 ∧ yearStr y = natDigit k :: t := by
  unfold yearStr
  split
  · exact ⟨y, _, by omega, rfl⟩
  · split
    · exact ⟨y / 10, _, by omega, rfl⟩
    · split
      · exact ⟨y / 100, _, by omega, rfl⟩
      · exact ⟨y / 1000, _, by omega, rfl⟩

theorem parseY4_none {s : Str} (h : (s.takeWhile Char.isDigit).length ≠ 4) :
    parseY4 s = none := by
  unfold parseY4
  rw [if_neg h]

theorem parseNum2_rest {maxv : Nat} {s : Str} {p : Nat × Str}
    (h : parseNum2 maxv s = some p) : p.2 = s.dropWhile Char.isDigit := by
  simp only [parseNum2] at h
  split at h
  · split at h
    · injection h with h'; subst h'; rfl
    · cases h
  · split at h
    · split at h
      · injection h with h'; subst h'; rfl
      · cases h
    · cases h

theorem parseNum2_pad2 {maxv n : Nat} (h1 : 1 ≤ n) (h2 : n ≤ maxv) (hn : n < 100)
    (r : Str) : parseNum2 maxv (pad2 n ++ '-' :: r) = some (n, '-' :: r) := by
  have hdash : Char.isDigit '-' = false := by decide
  unfold parseNum2
  simp only [takeWhile_append_cons hdash _ (pad2_all_digits n),
    dropWhile_append_cons hdash _ (pad2_all_digits n)]
  rw [if_neg (by simp [pad2]), if_pos (by simp [pad2]),
    if_pos (by simp [digitsVal_pad2 n hn, h1, h2]), digitsVal_pad2 n hn]

theorem parseB_natDigit (k : Nat) (hk : k < 10) (r : Str) :
    parseB (natDigit k :: r) = none := by
  interval_cases k <;>
    simp [parseB, monthNames, matchCI, natDigit, Nat.digitChar, lowerChar, List.findSome?]

theorem stf_none_ymdDash {s : Str} (h : (s.takeWhile Char.isDigit).length ≠ 4) :
    strptimeF .ymdDash s = none := by
  unfold strptimeF
  have hrun : runYmdDash s = none := by simp [runYmdDash, parseY4_none h]
  rw [show runFmt .ymdDash = runYmdDash from rfl, hrun]

theorem stf_none_ymdSlash {s : Str} (h : (s.takeWhile Char.isDigit).length ≠ 4) :
    strptimeF .ymdSlash s = none := by
  unfold strptimeF
  have hrun : runYmdSlash s = none := by simp [runYmdSlash, parseY4_none h]
  rw [show runFmt .ymdSlash = runYmdSlash from rfl, hrun]

theorem stf_none_dmySlash {s r : Str} (h : s.dropWhile Char.isDigit = '-' :: r) :
    strptimeF .dmySlash s = none := by
  unfold strptimeF
  have hrun : runDmySlash s = none := by
    cases hp : parseNum2 31 s with
    | none => simp [runDmySlash, hp]
    | some p =>
      obtain ⟨v, rest⟩ := p
      have hr : rest = '-' :: r := by rw [show rest = (v, rest).2 from rfl, parseNum2_rest hp, h]
      subst hr
      simp [runDmySlash, hp, expectChar]
  rw [show runFmt .dmySlash = runDmySlash from rfl, hrun]

theorem stf_none_mdySlash {s r : Str} (h : s.dropWhile Char.isDigit = '-' :: r) :
    strptimeF .mdySlash s = none := by
  unfold strptimeF
  have hrun : runMdySlash s = none := by
    cases hp : parseNum2 12 s with
    | none => simp [runMdySlash, hp]
    | some p =>
      obtain ⟨v, rest⟩ := p
      have hr : rest = '-' :: r := by rw [show rest = (v, rest).2 from rfl, parseNum2_rest hp, h]
      subst hr
      simp [runMdySlash, hp, expectChar]
  rw [show runFmt .mdySlash = runMdySlash from rfl, hrun]

theorem stf_none_dBY {s r : Str} (h : s.dropWhile Char.isDigit = '-' :: r) :
    strptimeF .dBY s = none := by
  unfold strptimeF
  have hrun : runDBY s = none := by
    cases hp : parseNum2 31 s with
    | none => simp [runDBY, hp]
    | some p =>
      obtain ⟨v, rest⟩ := p
      have hr : rest = '-' :: r := by rw [show rest = (v, rest).2 from rfl, parseNum2_rest hp, h]
      subst hr
      simp [runDBY, hp, ws1, pyWs]
  rw [show runFmt .dBY = runDBY from rfl, hrun]

theorem stf_none_dmyDash {s : Str} {m d : Nat} (hm1 : 1 ≤ m) (hm2 : m ≤ 12)
    (h : s.dropWhile Char.isDigit = '-' :: (pad2 m ++ '-' :: pad2 d)) :
    strptimeF .dmyDash s = none := by
  unfold strptimeF
  have hrun : runDmyDash s = none := by
    cases hp : parseNum2 31 s with
    | none => simp [runDmyDash, hp]
    | some p =>
      obtain ⟨v, rest⟩ := p
      have hr : rest = '-' :: (pad2 m ++ '-' :: pad2 d) := by
        rw [show rest = (v, rest).2 from rfl, parseNum2_rest hp, h]
      subst hr
      have h2 : parseNum2 12 (pad2 m ++ '-' :: pad2 d) = some (m, '-' :: pad2 d) :=
        parseNum2_pad2 hm1 hm2 (by omega) _
      have h3 : parseY4 (pad2 d) = none :=
        parseY4_none (by rw [takeWhile_all (pad2_all_digits d)]; simp [pad2])
      simp [runDmyDash, hp, h2, h3, expectChar]
  rw [show runFmt .dmyDash = runDmyDash from rfl, hrun]

theorem stf_none_bdY {k : Nat} (hk : k < 10) (r : Str) :
    strptimeF .bdY (natDigit k :: r) = none := by
  unfold strptimeF
  have hrun : runBdY (natDigit k :: r) = none := by
    simp [runBdY, parseB_natDigit k hk r]
  rw [show runFmt .bdY = runBdY from rfl, hrun]

theorem parseY4take_of_dash {s ds : Str} (hds : s.take 4 = ds) (h : '-' ∈ ds) :
    parseY4take s = none := by
  unfold parseY4take
  rw [hds, if_neg]
  intro hc
  simp only [Bool.and_eq_true, decide_eq_true_eq, List.all_eq_true] at hc
  exact absurd (hc.2 '-' h) (by decide)

theorem stf_none_compact {s : Str} (h : parseY4take s = none) :
    strptimeF .ymdCompact s = none := by
  unfold strptimeF
  have hrun : runYmdCompact s = none := by simp [runYmdCompact, h]
  rw [show runFmt .ymdCompact = runYmdCompact from rfl, hrun]

theorem firstParse_render_lo (dt : Date) (hv : validDate dt.y dt.m dt.d = true)
    (hy : dt.y < 1000) : firstParse (renderIso dt) = none := by
  obtain ⟨hy1, hy2, hm1, hm2, hd1, hd2⟩ := validDate_bounds hv
  have hdash : Char.isDigit '-' = false := by decide
  have hyd := yearStr_all_digits dt.y hy2
  have e1 : (renderIso dt).takeWhile Char.isDigit = yearStr dt.y := by
    unfold renderIso; exact takeWhile_append_cons hdash _ hyd
  have e2 : (renderIso dt).dropWhile Char.isDigit =
      '-' :: (pad2 dt.m ++ '-' :: pad2 dt.d) := by
    unfold renderIso; exact dropWhile_append_cons hdash _ hyd
  have hlen : ((renderIso dt).takeWhile Char.isDigit).length ≠ 4 := by
    rw [e1]
    have := yearStr_length_lo dt.y hy
    omega
  have f7 : strptimeF .bdY (renderIso dt) = none := by
    obtain ⟨k, t, hk, hys⟩ := yearStr_head dt.y hy2
    have hshape : renderIso dt =
        natDigit k :: (t ++ '-' :: (pad2 dt.m ++ '-' :: pad2 dt.d)) := by
      unfold renderIso; rw [hys]; rfl
    rw [hshape]
    exact stf_none_bdY hk _
  have f8 : strptimeF .ymdCompact (renderIso dt) = none := by
    apply stf_none_compact
    rcases Nat.lt_or_ge dt.y 10 with h1 | h1
    · have hys : yearStr dt.y = [natDigit dt.y] := by unfold yearStr; rw [if_pos h1]
      have hshape : renderIso dt =
          natDigit dt.y :: '-' :: (pad2 dt.m ++ '-' :: pad2 dt.d) := by
        unfold renderIso; rw [hys]; rfl
      rw [hshape]
      exact parseY4take_of_dash rfl (by simp)
    · rcases Nat.lt_or_ge dt.y 100 with h2 | h2
      · have hys : yearStr dt.y = [natDigit (dt.y / 10), natDigit (dt.y % 10)] := by
          unfold yearStr; rw [if_neg (by omega), if_pos h2]
        have hshape : renderIso dt =
            natDigit (dt.y / 10) :: natDigit (dt.y % 10) :: '-' ::
              (pad2 dt.m ++ '-' :: pad2 dt.d) := by
          unfold renderIso; rw [hys]; rfl
        rw [hshape]
        exact parseY4take_of_dash rfl (by simp)
      · have hys : yearStr dt.y =
            [natDigit (dt.y / 100), natDigit (dt.y / 10 % 10), natDigit (dt.y % 10)] := by
          unfold yearStr; rw [if_neg (by omega), if_neg (by omega), if_pos hy]
        have hshape : renderIso dt =
            natDigit (dt.y / 100) :: natDigit (dt.y / 10 % 10) :: natDigit (dt.y % 10) ::
              '-' :: (pad2 dt.m ++ '-' :: pad2 dt.d) := by
          unfold renderIso; rw [hys]; rfl
        rw [hshape]
        exact parseY4take_of_dash rfl (by simp)
  unfold firstParse
  rw [List.findSome?_eq_none_iff]
  intro f hf
  simp only [dateFormats, List.mem_cons, List.not_mem_nil, or_false] at hf
  rcases hf with rfl | rfl | rfl | rfl | rfl | rfl | rfl | rfl
  · exact stf_none_ymdDash hlen
  · exact stf_none_dmySlash e2
  · exact stf_none_mdySlash e2
  · exact stf_none_dmyDash hm1 hm2 e2
  · exact stf_none_ymdSlash hlen
  · exact stf_none_dBY e2
  · exact f7
  · exact f8

theorem normalize_date_idem (os : Option Str) :
    normalize_date (normalize_date os) = normalize_date os := by
  match os with
  | none => rfl
  | some s =>
    by_cases hnil : s = []
    · subst hnil
      rfl
    · cases hfp : firstParse (pyStrip s) with
      | none =>
        have h1 : normalize_date (some s) = some s := by
          simp only [normalize_date]
          rw [if_neg hnil, hfp]
        rw [h1]
        exact h1
      | some dt =>
        have hv := firstParse_valid hfp
        obtain ⟨hy1, hy2, hm1, hm2, hd1, hd2⟩ := validDate_bounds hv
        have h1 : normalize_date (some s) = some (renderIso dt) := by
          simp only [normalize_date]
          rw [if_neg hnil, hfp]
        rw [h1]
        have hstrip : pyStrip (renderIso dt) = renderIso dt :=
          pyStrip_no_ws (renderIso_no_ws dt hy2)
        have hne := renderIso_ne_nil dt
        rcases Nat.lt_or_ge dt.y 1000 with hy | hy
        · have h2 : firstParse (pyStrip (renderIso dt)) = none := by
            rw [hstrip]; exact firstParse_render_lo dt hv hy
          simp only [normalize_date]
          rw [if_neg hne, h2]
        · have h2 : firstParse (pyStrip (renderIso dt)) = some dt := by
            rw [hstrip]; exact firstParse_render_hi dt hv hy
          simp only [normalize_date]
          rw [if_neg hne, h2]

/-- C10: `normalize_date` is idempotent. A successfully parsed date re-renders
as `Y-MM-DD`; when the year has four digits this re-parses under the first
format to the same date, and when it has fewer (glibc does not zero-pad `%Y`)
it matches no format and is returned unchanged. Unparseable strings are
returned unchanged by both applications, and null/empty input maps to null. -/
theorem c10_normalize_date_idem (os : Option Str) :
    normalize_date (normalize_date os) = normalize_date os :=
  normalize_date_idem os

/-! ## The exception-threaded variants always return `ok`: the
`except ValueError` handler catches everything `strptime` can raise. -/

theorem tryFormatsE_ok (fs : List Fmt) (s : Str) :
    tryFormatsE fs s = .ok (fs.findSome? (strptimeF · s)) := by
  induction fs with
  | nil => rfl
  | cons f fs ih =>
    simp only [tryFormatsE, strptimeE, List.findSome?_cons]
    cases hf : strptimeF f s <;> simp [hf, ih]

theorem normalize_dateE_ok (os : Option Str) :
    normalize_dateE os = .ok (normalize_date os) := by
  match os with
  | none => rfl
  | some s =>
    by_cases hnil : s = []
    · subst hnil; rfl
    · simp only [normalize_dateE, normalize_date]
      rw [if_neg hnil, if_neg hnil,
        show tryFormatsE dateFormats (pyStrip s) = .ok (firstParse (pyStrip s)) from
          tryFormatsE_ok _ _]
      cases firstParse (pyStrip s) <;> rfl

theorem mergeIntoE_ok (e r : Rec) : mergeIntoE e r = .ok (mergeInto e r) := by
  simp only [mergeIntoE, mergeInto, normalize_dateE_ok]
  rfl

theorem updateAE_ok (k : Str) (f : Rec → Except PyErr Rec) (g : Rec → Rec)
    (hfg : ∀ e, f e = .ok (g e)) :
    ∀ st : MState, updateAE st k f = .ok (updateA st k g)
  | [] => rfl
  | (k', r) :: t => by
    simp only [updateAE, updateA]
    split
    · rw [hfg r]; rfl
    · rw [updateAE_ok k f g hfg t]; rfl

theorem mergeStepE_ok (st : MState) (r : Rec) :
    mergeStepE st r = .ok (mergeStep st r) := by
  simp only [mergeStepE, mergeStep]
  split
  · exact updateAE_ok _ _ _ (fun e => mergeIntoE_ok e r) st
  · rfl

theorem foldlM_mergeStepE_ok (l : List Rec) :
    ∀ st : MState, List.foldlM mergeStepE st l = .ok (List.foldl mergeStep st l) := by
  induction l with
  | nil => intro st; rfl
  | cons r t ih =>
    intro st
    simp only [List.foldlM_cons, List.foldl_cons, mergeStepE_ok]
    simpa using ih (mergeStep st r)

/-! ## Fixed points of the normalization stages, for C3's amended statement. -/

theorem toNat_ofNat_valid {n : Nat} (h : n < 55296) : (Char.ofNat n).toNat = n := by
  unfold Char.ofNat
  rw [dif_pos (Or.inl h)]
  rfl

theorem upperChar_idem (c : Char) : upperChar (upperChar c) = upperChar c := by
  by_cases h : 97 ≤ c.toNat ∧ c.toNat ≤ 122
  · have h1 : upperChar c = Char.ofNat (c.toNat - 32) := by
      unfold upperChar
      rw [if_pos (by simp only [Bool.and_eq_true, decide_eq_true_eq]; exact h)]
    have ht : (Char.ofNat (c.toNat - 32)).toNat = c.toNat - 32 :=
      toNat_ofNat_valid (by omega)
    rw [h1]
    unfold upperChar
    rw [if_neg (by simp only [Bool.and_eq_true, decide_eq_true_eq, ht]; omega)]
  · have h1 : upperChar c = c := by
      unfold upperChar
      rw [if_neg (by simp only [Bool.and_eq_true, decide_eq_true_eq]; omega)]
    rw [h1, h1]

theorem mem_dropWhile {p : Char → Bool} {l : Str} {c : Char}
    (h : c ∈ l.dropWhile p) : c ∈ l :=
  (List.dropWhile_suffix p).subset h

theorem mem_pyStrip {l : Str} {c : Char} (h : c ∈ pyStrip l) : c ∈ l := by
  unfold pyStrip at h
  rw [List.mem_reverse] at h
  have h2 := mem_dropWhile h
  rw [List.mem_reverse] at h2
  exact mem_dropWhile h2

theorem mem_squeeze : ∀ {l : Str} {c : Char}, c ∈ squeeze l → c ∈ l
  | [], _, h => h
  | [_], _, h => h
  | a :: b :: r, c, h => by
    unfold squeeze at h
    split at h
    · exact List.mem_cons_of_mem a (mem_squeeze h)
    · rcases List.mem_cons.mp h with rfl | h2
      · exact List.mem_cons_self _ _
      · exact List.mem_cons_of_mem a (mem_squeeze h2)

theorem mem_mapWsToSpace {l : Str} {c : Char} (h : c ∈ mapWsToSpace l) :
    c = ' ' ∨ (c ∈ l ∧ pyWs c = false) := by
  unfold mapWsToSpace at h
  rw [List.mem_map] at h
  obtain ⟨c₀, hc₀, rfl⟩ := h
  cases hw : pyWs c₀ with
  | true => left; simp [hw]
  | false => right; simp [hw]; exact hc₀

theorem mem_sfxCore {t : Str} {x : Char} (hx : x ∈ sfxCore t) : x ∈ t := by
  unfold sfxCore at hx
  split at hx
  · exact List.dropLast_subset _ hx
  · exact hx

theorem findSfx_subset {t b : Str} (h : findSfx t = some b) : ∀ c ∈ b, c ∈ t := by
  intro c hc
  unfold findSfx at h
  obtain ⟨alt, _, hsome⟩ := List.exists_of_findSome?_eq_some h
  split at hsome
  · split at hsome
    · split at hsome
      · injection hsome with hb
        subst hb
        rw [List.mem_reverse] at hc
        have h2 := mem_dropWhile hc
        rw [List.mem_reverse] at h2
        exact mem_sfxCore (List.take_subset _ _ h2)
      · cases hsome
    · cases hsome
  · cases hsome

theorem mem_stripSfx {l : Str} {c : Char} (h : c ∈ stripSfx l) : c ∈ l := by
  unfold stripSfx at h
  by_cases hnl : l.getLast? = some '\n'
  · rw [if_pos hnl] at h
    cases hf : findSfx l.dropLast with
    | none => rw [hf] at h; exact h
    | some base =>
      rw [hf] at h
      rcases List.mem_append.mp h with h1 | h1
      · exact List.dropLast_subset _ (findSfx_subset hf c h1)
      · simp only [List.mem_cons, List.not_mem_nil, or_false] at h1
        subst h1
        exact List.mem_of_getLast?_eq_some hnl
  · rw [if_neg hnl] at h
    cases hf : findSfx l with
    | none => rw [hf] at h; exact h
    | some base =>
      rw [hf] at h
      exact findSfx_subset hf c h

theorem map_id_of {f : Char → Char} : ∀ {l : Str}, (∀ c ∈ l, f c = c) → l.map f = l
  | [], _ => rfl
  | a :: t, h => by
    rw [List.map_cons, h a (List.mem_cons_self a t),
      map_id_of fun c hc => h c (List.mem_cons_of_mem a hc)]

theorem filter_all_of {p : Char → Bool} : ∀ {l : Str}, (∀ c ∈ l, p c = true) →
    l.filter p = l
  | [], _ => rfl
  | a :: t, h => by
    rw [List.filter_cons, if_pos (h a (List.mem_cons_self a t)),
      filter_all_of fun c hc => h c (List.mem_cons_of_mem a hc)]

theorem squeeze_cons_cons (a b : Char) (r : Str) :
    squeeze (a :: b :: r) =
      if a = ' ' ∧ b = ' ' then squeeze (b :: r) else a :: squeeze (b :: r) := by
  by_cases h : a = ' ' ∧ b = ' '
  · rw [if_pos h]
    simp only [squeeze]
    rw [if_pos (by simp only [Bool.and_eq_true, decide_eq_true_eq]; exact h)]
  · rw [if_neg h]
    simp only [squeeze]
    rw [if_neg (by simp only [Bool.and_eq_true, decide_eq_true_eq]; exact h)]

theorem squeeze_cons (x : Char) : ∀ xs : Str, ∃ ys, squeeze (x :: xs) = x :: ys
  | [] => ⟨[], rfl⟩
  | b :: r => by
    by_cases h : x = ' ' ∧ b = ' '
    · obtain ⟨ys, hys⟩ := squeeze_cons b r
      have hx : x = b := by rw [h.1, h.2]
      exact ⟨ys, by rw [squeeze_cons_cons, if_pos h, hys, hx]⟩
    · exact ⟨squeeze (b :: r), by rw [squeeze_cons_cons, if_neg h]⟩

theorem squeeze_chain' : ∀ l : Str,
    List.Chain' (fun a b => ¬(a = ' ' ∧ b = ' ')) (squeeze l)
  | [] => List.chain'_nil
  | [c] => List.chain'_singleton c
  | a :: b :: r => by
    rw [squeeze_cons_cons]
    by_cases h : a = ' ' ∧ b = ' '
    · rw [if_pos h]
      exact squeeze_chain' (b :: r)
    · rw [if_neg h]
      obtain ⟨ys, hys⟩ := squeeze_cons b r
      have hch := squeeze_chain' (b :: r)
      rw [hys] at hch ⊢
      exact List.chain'_cons.mpr ⟨h, hch⟩

theorem squeeze_eq_self : ∀ {l : Str},
    List.Chain' (fun a b => ¬(a = ' ' ∧ b = ' ')) l → squeeze l = l
  | [], _ => rfl
  | [_], _ => rfl
  | a :: b :: r, h => by
    obtain ⟨h1, h2⟩ := List.chain'_cons.mp h
    rw [squeeze_cons_cons, if_neg h1, squeeze_eq_self h2]

theorem dropWhile_idem {p : Char → Bool} : ∀ l : Str,
    (l.dropWhile p).dropWhile p = l.dropWhile p
  | [] => rfl
  | a :: t => by
    cases h : p a
    · simp [List.dropWhile_cons, h]
    · simp [List.dropWhile_cons, h, dropWhile_idem t]

theorem head?_dropWhile_false {p : Char → Bool} :
    ∀ {l : Str} {c : Char}, (l.dropWhile p).head? = some c → p c = false
  | [], _, h => by cases h
  | a :: t, c, h => by
    rw [List.dropWhile_cons] at h
    split at h
    · exact head?_dropWhile_false h
    · injection h with h'
      subst h'
      rename_i hpa
      exact Bool.not_eq_true _ ▸ by simpa using hpa

theorem head?_fails_dropWhile_self {p : Char → Bool} {l : Str} {c : Char}
    (h : l.head? = some c) (hpc : p c = false) : l.dropWhile p = l := by
  cases l with
  | nil => rfl
  | cons a t =>
    injection h with h'
    subst h'
    rw [List.dropWhile_cons, if_neg (by simp [hpc])]

theorem getLast?_suffix {l' l : Str} (h : l' <:+ l) (hne : l' ≠ []) :
    l'.getLast? = l.getLast? := by
  obtain ⟨pre, rfl⟩ := h
  rw [List.getLast?_append]
  cases hgl : l'.getLast? with
  | none => exact absurd (List.getLast?_eq_none_iff.mp hgl) hne
  | some x => rfl

theorem pyStrip_idem (u : Str) : pyStrip (pyStrip u) = pyStrip u := by
  have key : ∀ v : Str, (pyStrip v).dropWhile pyWs = pyStrip v := by
    intro v
    cases hD : ((v.dropWhile pyWs).reverse.dropWhile pyWs) with
    | nil => unfold pyStrip; rw [hD]; rfl
    | cons d ds =>
      have hne : (v.dropWhile pyWs).reverse.dropWhile pyWs ≠ [] := by rw [hD]; simp
      have hgl : ((v.dropWhile pyWs).reverse.dropWhile pyWs).getLast? =
          ((v.dropWhile pyWs).reverse).getLast? :=
        getLast?_suffix (List.dropWhile_suffix pyWs) hne
      have h2 : ((v.dropWhile pyWs).reverse).getLast? = (v.dropWhile pyWs).head? := by
        rw [List.getLast?_eq_head?_reverse, List.reverse_reverse]
      cases hh : (v.dropWhile pyWs).head? with
      | none =>
        have : v.dropWhile pyWs = [] := by
          cases hvv : v.dropWhile pyWs with
          | nil => rfl
          | cons x xs => rw [hvv] at hh; cases hh
        rw [this] at hD
        cases hD
      | some c =>
        have hpc : pyWs c = false := head?_dropWhile_false hh
        have hhead : (pyStrip v).head? = some c := by
          unfold pyStrip
          rw [List.head?_reverse]
          rw [hgl, h2, hh]
        exact head?_fails_dropWhile_self hhead hpc
  show (((pyStrip u).dropWhile pyWs).reverse.dropWhile pyWs).reverse = pyStrip u
  rw [key u]
  have h2 : (pyStrip u).reverse = (u.dropWhile pyWs).reverse.dropWhile pyWs := by
    unfold pyStrip
    rw [List.reverse_reverse]
  rw [h2, dropWhile_idem, ← h2, List.reverse_reverse]

theorem chain'_pyStrip {P : Char → Char → Prop} (hsym : ∀ a b, P a b → P b a)
    {l : Str} (h : List.Chain' P l) : List.Chain' P (pyStrip l) := by
  unfold pyStrip
  have h1 : List.Chain' P (l.dropWhile pyWs) := h.suffix (List.dropWhile_suffix pyWs)
  have h2 : List.Chain' P ((l.dropWhile pyWs).reverse) := by
    rw [List.chain'_reverse]
    exact h1.imp fun a b hab => hsym a b hab
  have h3 : List.Chain' P ((l.dropWhile pyWs).reverse.dropWhile pyWs) :=
    h2.suffix (List.dropWhile_suffix pyWs)
  rw [List.chain'_reverse]
  exact h3.imp fun a b hab => hsym a b hab

theorem normalize_chars (s : Str) :
    ∀ c ∈ normalize_firm_name s, c = ' ' ∨
      (wordChar c = true ∧ pyWs c = false ∧ ∃ c₀, c = upperChar c₀) := by
  intro c hc
  unfold normalize_firm_name at hc
  split at hc
  · cases hc
  · unfold collapseStrip at hc
    have hc1 := mem_squeeze (mem_pyStrip hc)
    rcases mem_mapWsToSpace hc1 with rfl | ⟨hc2, hws⟩
    · left; rfl
    · right
      have hf := List.mem_filter.mp hc2
      have hword : wordChar c = true := by
        have h2 := hf.2
        rw [hws, Bool.or_false] at h2
        exact h2
      have hm := mem_stripSfx hf.1
      rw [List.mem_map] at hm
      obtain ⟨c₀, _, hcc⟩ := hm
      exact ⟨hword, hws, c₀, hcc.symm⟩

theorem normalize_fixed_parts (s : Str) :
    (normalize_firm_name s).map upperChar = normalize_firm_name s ∧
    filterWordWs (normalize_firm_name s) = normalize_firm_name s ∧
    collapseStrip (normalize_firm_name s) = normalize_firm_name s := by
  have hchars := normalize_chars s
  refine ⟨?_, ?_, ?_⟩
  · exact map_id_of fun c hc => by
      rcases hchars c hc with rfl | ⟨_, _, c₀, rfl⟩
      · decide
      · exact upperChar_idem c₀
  · exact filter_all_of fun c hc => by
      rcases hchars c hc with rfl | ⟨hword, _, _⟩
      · decide
      · rw [hword, Bool.true_or]
  · by_cases hs : s = []
    · rw [show normalize_firm_name s = [] from by rw [hs]; rfl]
      rfl
    · have hrepr : normalize_firm_name s =
          pyStrip (squeeze (mapWsToSpace (filterWordWs (stripSfx (s.map upperChar))))) := by
        unfold normalize_firm_name collapseStrip
        rw [if_neg hs]
      have hmw : mapWsToSpace (normalize_firm_name s) = normalize_firm_name s :=
        map_id_of fun c hc => by
          rcases hchars c hc with rfl | ⟨_, hws, _⟩
          · decide
          · simp [hws]
      have hch : List.Chain' (fun a b => ¬(a = ' ' ∧ b = ' ')) (normalize_firm_name s) := by
        rw [hrepr]
        exact chain'_pyStrip (fun a b hab h => hab ⟨h.2, h.1⟩) (squeeze_chain' _)
      have hsq : squeeze (normalize_firm_name s) = normalize_firm_name s :=
        squeeze_eq_self hch
      have hst : pyStrip (normalize_firm_name s) = normalize_firm_name s := by
        rw [hrepr, pyStrip_idem, ← hrepr]
      unfold collapseStrip
      rw [hmw, hsq, hst]

/-- C3, amended: the name normalizer is idempotent at every string whose
normalized form is left unchanged by the corporate-suffix-stripping pass (in
general a second application can strip one more newly-exposed suffix, as in
the counterexample). -/
theorem c3_idempotent_unless_new_suffix (s : Str)
    (h : stripSfx (normalize_firm_name s) = normalize_firm_name s) :
    normalize_firm_name (normalize_firm_name s) = normalize_firm_name s := by
  obtain ⟨hup, hfil, hcol⟩ := normalize_fixed_parts s
  generalize hw : normalize_firm_name s = w at h hup hfil hcol ⊢
  by_cases hnil : w = []
  · rw [hnil]; rfl
  · unfold normalize_firm_name
    rw [if_neg hnil, hup, h, hfil, hcol]

/-- Witness for `c3_idempotent_unless_new_suffix` at `"Acme Inc"` (normalized
form `"ACME"`, which ends in no corporate suffix). -/
theorem c3_idempotent_unless_new_suffix_witness :
    stripSfx (normalize_firm_name (str "Acme Inc")) = normalize_firm_name (str "Acme Inc") ∧
    normalize_firm_name (normalize_firm_name (str "Acme Inc")) =
      normalize_firm_name (str "Acme Inc") :=
  ⟨by decide, c3_idempotent_unless_new_suffix _ (by decide)⟩

/-- C9: the merge engine and date normalizer never raise: the
exception-threaded variants agree with the total functions and always return
`ok`, for every input — unparseable dates are kept as opaque strings or null
(`c5`/`c10` describe `normalize_date`'s fallback), never crashing the merge. -/
theorem c9_never_raises :
    (∀ os : Option Str, normalize_dateE os = .ok (normalize_date os)) ∧
    (∀ records : List Rec,
      merge_client_recordsE records = .ok (merge_client_records records)) := by
  refine ⟨normalize_dateE_ok, fun records => ?_⟩
  simp only [merge_client_recordsE, merge_client_records, foldlM_mergeStepE_ok]
  rfl

/-! ## Python string comparison is a strict linear order; `min`/`max` algebra. -/

theorem strLtB_trans : ∀ {a b c : Str}, strLtB a b = true → strLtB b c = true →
    strLtB a c = true
  | [], b, c, h1, h2 => by
    cases c with
    | nil =>
      cases b with
      | nil => cases h1
      | cons y ys => cases h2
    | cons z zs => rfl
  | x :: xs, [], _, h1, _ => by cases h1
  | x :: xs, y :: ys, [], _, h2 => by cases h2
  | x :: xs, y :: ys, z :: zs, h1, h2 => by
    simp only [strLtB] at h1 h2 ⊢
    by_cases hxy : x < y
    · by_cases hyz : y < z
      · rw [if_pos (lt_trans hxy hyz)]
      · rw [if_neg hyz] at h2
        by_cases hyz2 : y = z
        · subst hyz2; rw [if_pos hxy]
        · rw [if_neg hyz2] at h2; cases h2
    · rw [if_neg hxy] at h1
      by_cases hxy2 : x = y
      · subst hxy2
        rw [if_pos rfl] at h1
        by_cases hxz : x < z
        · rw [if_pos hxz]
        · rw [if_neg hxz] at h2 ⊢
          by_cases hxz2 : x = z
          · rw [if_pos hxz2] at h2 ⊢
            exact strLtB_trans h1 h2
          · rw [if_neg hxz2] at h2; cases h2
      · rw [if_neg hxy2] at h1; cases h1

theorem strLtB_asymm : ∀ {a b : Str}, strLtB a b = true → strLtB b a = false
  | [], [], h => by cases h
  | [], _ :: _, _ => rfl
  | _ :: _, [], h => by cases h
  | x :: xs, y :: ys, h => by
    simp only [strLtB] at h ⊢
    by_cases hxy : x < y
    · rw [if_neg (asymm hxy),
        if_neg (show ¬(y = x) from by intro he; subst he; exact lt_irrefl y hxy)]
    · rw [if_neg hxy] at h
      by_cases hxy2 : x = y
      · subst hxy2
        rw [if_pos rfl] at h
        rw [if_neg (lt_irrefl x), if_pos rfl]
        exact strLtB_asymm h
      · rw [if_neg hxy2] at h; cases h

theorem strLtB_conn : ∀ {a b : Str}, strLtB a b = false → strLtB b a = false → a = b
  | [], [], _, _ => rfl
  | [], _ :: _, h1, _ => by cases h1
  | _ :: _, [], _, h2 => by cases h2
  | x :: xs, y :: ys, h1, h2 => by
    simp only [strLtB] at h1 h2
    by_cases hxy : x < y
    · rw [if_pos hxy] at h1; cases h1
    · by_cases hyx : y < x
      · rw [if_pos hyx] at h2; cases h2
      · have hxy2 : x = y := le_antisymm (not_lt.mp hyx) (not_lt.mp hxy)
        subst hxy2
        rw [if_neg hxy, if_pos rfl] at h1
        rw [if_neg hxy, if_pos rfl] at h2
        rw [strLtB_conn h1 h2]

theorem pymin_eq_left {a b : Str} (h : strLtB b a = false) : pymin a b = a := by
  unfold pymin
  rw [if_neg (by simp [h])]

theorem pymin_eq_right {a b : Str} (h : strLtB b a = true) : pymin a b = b := by
  unfold pymin
  rw [if_pos h]

theorem pymax_eq_left {a b : Str} (h : strLtB a b = false) : pymax a b = a := by
  unfold pymax
  rw [if_neg (by simp [h])]

theorem pymax_eq_right {a b : Str} (h : strLtB a b = true) : pymax a b = b := by
  unfold pymax
  rw [if_pos h]

theorem pymin_comm (a b : Str) : pymin a b = pymin b a := by
  cases h1 : strLtB b a with
  | true =>
    rw [pymin_eq_right h1, pymin_eq_left (strLtB_asymm h1)]
  | false =>
    cases h2 : strLtB a b with
    | true => rw [pymin_eq_left h1, pymin_eq_right h2]
    | false => rw [pymin_eq_left h1, pymin_eq_left h2, strLtB_conn h2 h1]

theorem pymin_choice (a b : Str) : pymin a b = a ∨ pymin a b = b := by
  unfold pymin
  split
  · right; rfl
  · left; rfl

theorem pymin_left_comm_of_lt {a b : Str} (hab : strLtB a b = true) (t : Str) :
    pymin (pymin t a) b = pymin (pymin t b) a := by
  have hba : strLtB b a = false := strLtB_asymm hab
  cases hat : strLtB a t with
  | true =>
    rw [pymin_eq_right hat, pymin_eq_left hba]
    cases hbt : strLtB b t with
    | true => rw [pymin_eq_right hbt, pymin_eq_right hab]
    | false => rw [pymin_eq_left hbt, pymin_eq_right hat]
  | false =>
    rw [pymin_eq_left hat]
    cases hbt : strLtB b t with
    | true =>
      have hc := strLtB_trans hab hbt
      rw [hc] at hat
      cases hat
    | false => rw [pymin_eq_left hbt, pymin_eq_left hat]

theorem pymin_left_comm (t a b : Str) :
    pymin (pymin t a) b = pymin (pymin t b) a := by
  cases hab : strLtB a b with
  | true => exact pymin_left_comm_of_lt hab t
  | false =>
    cases hba : strLtB b a with
    | true => exact (pymin_left_comm_of_lt hba t).symm
    | false => rw [strLtB_conn hab hba]

theorem pymax_comm (a b : Str) : pymax a b = pymax b a := by
  cases h1 : strLtB a b with
  | true =>
    rw [pymax_eq_right h1, pymax_eq_left (strLtB_asymm h1)]
  | false =>
    cases h2 : strLtB b a with
    | true => rw [pymax_eq_left h1, pymax_eq_right h2]
    | false => rw [pymax_eq_left h1, pymax_eq_left h2, strLtB_conn h1 h2]

theorem pymax_choice (a b : Str) : pymax a b = a ∨ pymax a b = b := by
  unfold pymax
  split
  · right; rfl
  · left; rfl

theorem pymax_left_comm_of_lt {a b : Str} (hab : strLtB a b = true) (t : Str) :
    pymax (pymax t a) b = pymax (pymax t b) a := by
  have hba : strLtB b a = false := strLtB_asymm hab
  cases hta : strLtB t a with
  | true =>
    rw [pymax_eq_right hta, pymax_eq_right hab]
    cases htb : strLtB t b with
    | true => rw [pymax_eq_right htb, pymax_eq_left hba]
    | false =>
      have hc := strLtB_trans hta hab
      rw [hc] at htb
      cases htb
  | false =>
    rw [pymax_eq_left hta]
    cases htb : strLtB t b with
    | true => rw [pymax_eq_right htb, pymax_eq_left hba]
    | false => rw [pymax_eq_left htb, pymax_eq_left hta]

theorem pymax_left_comm (t a b : Str) :
    pymax (pymax t a) b = pymax (pymax t b) a := by
  cases hab : strLtB a b with
  | true => exact pymax_left_comm_of_lt hab t
  | false =>
    cases hba : strLtB b a with
    | true => exact (pymax_left_comm_of_lt hba t).symm
    | false => rw [strLtB_conn hab hba]

/-! ## The projected reconciliation step commutes on condition-abiding
records, for any state. -/

theorem normalize_date_some_ne_nil {o : Option Str} {s : Str}
    (h : normalize_date o = some s) : s ≠ [] := by
  cases o with
  | none => cases h
  | some s₀ =>
    by_cases h0 : s₀ = []
    · simp only [normalize_date] at h
      rw [if_pos h0] at h
      cases h
    · simp only [normalize_date] at h
      rw [if_neg h0] at h
      cases hf : firstParse (pyStrip s₀) with
      | none =>
        rw [hf] at h
        injection h with h'
        subst h'
        exact h0
      | some dt =>
        rw [hf] at h
        injection h with h'
        subst h'
        exact renderIso_ne_nil _

theorem dcomb_none (f : Str → Str → Str) (t : Option Str) : dcomb f t none = t := by
  unfold dcomb
  simp [normalize_date, truthy]

theorem dcomb_some (f : Str → Str → Str) {b : Str} (hb : normalize_date (some b) = some b)
    (t : Option Str) :
    dcomb f t (some b) =
      match normalize_date t with
      | none => some b
      | some a => some (f a b) := by
  have hbne : b ≠ [] := normalize_date_some_ne_nil hb
  have hbt : truthy (some b) = true := by
    cases b with
    | nil => exact absurd rfl hbne
    | cons c t' => rfl
  cases hn : normalize_date t with
  | none =>
    simp only [dcomb, hb, hn]
    rw [if_neg (by simp [truthy]), if_pos hbt]
  | some a =>
    have hat : truthy (some a) = true := by
      have h2 := normalize_date_some_ne_nil hn
      cases a with
      | nil => exact absurd rfl h2
      | cons c t' => rfl
    simp only [dcomb, hb, hn]
    rw [if_pos (by simp [hat, hbt])]
    rfl

theorem dcomb_base_comm (f : Str → Str → Str) (hfc : ∀ a b, f a b = f b a)
    {sx sy : Option Str} (hx : normalize_date sx = sx) (hy : normalize_date sy = sy) :
    dcomb f sx sy = dcomb f sy sx := by
  cases sx with
  | none =>
    cases sy with
    | none => rfl
    | some b =>
      rw [dcomb_some f hy, dcomb_none]
      rfl
  | some a =>
    cases sy with
    | none =>
      rw [dcomb_some f hx, dcomb_none]
      rfl
    | some b =>
      rw [dcomb_some f hy, dcomb_some f hx, hx, hy]
      dsimp only
      rw [hfc a b]

theorem dcomb_swap (f : Str → Str → Str) (hfc : ∀ a b, f a b = f b a)
    (hfl : ∀ t a b, f (f t a) b = f (f t b) a)
    (hch : ∀ a b, f a b = a ∨ f a b = b)
    {sx sy : Option Str} (hx : normalize_date sx = sx) (hy : normalize_date sy = sy)
    (t : Option Str) :
    dcomb f (dcomb f t sx) sy = dcomb f (dcomb f t sy) sx := by
  cases sx with
  | none => rw [dcomb_none, dcomb_none]
  | some bx =>
    cases sy with
    | none => rw [dcomb_none, dcomb_none]
    | some by' =>
      rw [dcomb_some f hx t, dcomb_some f hy t]
      cases hn : normalize_date t with
      | none =>
        simp only [hn]
        rw [dcomb_some f hy, dcomb_some f hx, hx, hy]
        dsimp only
        rw [hfc bx by']
      | some a =>
        simp only [hn]
        have hna : normalize_date (some a) = some a := by
          have h2 := normalize_date_idem t
          rw [hn] at h2
          exact h2
        have hfx : normalize_date (some (f a bx)) = some (f a bx) := by
          rcases hch a bx with he | he <;> rw [he]
          · exact hna
          · exact hx
        have hfy : normalize_date (some (f a by')) = some (f a by') := by
          rcases hch a by' with he | he <;> rw [he]
          · exact hna
          · exact hy
        rw [dcomb_some f hy, dcomb_some f hx, hfx, hfy]
        dsimp only
        rw [hfl a bx by']

theorem icomb_keep {t s : Option Str} (ht : truthy t = true) : icomb t s = t := by
  unfold icomb
  rw [if_neg (by simp [ht])]

theorem icomb_skip {t s : Option Str} (hs : truthy s = false) : icomb t s = t := by
  unfold icomb
  rw [if_neg (by simp [hs])]

theorem icomb_fill {t s : Option Str} (ht : truthy t = false) (hs : truthy s = true) :
    icomb t s = s := by
  unfold icomb
  rw [if_pos (by simp [ht, hs])]

theorem icomb_base_comm {sx sy : Option Str} (hx : idOk sx) (hy : idOk sy)
    (hagree : truthy sx = true → truthy sy = true → sx = sy) :
    icomb sx sy = icomb sy sx := by
  cases htx : truthy sx with
  | true =>
    cases hty : truthy sy with
    | true => rw [icomb_keep htx, icomb_keep hty, hagree htx hty]
    | false => rw [icomb_skip hty, icomb_fill hty htx]
  | false =>
    cases hty : truthy sy with
    | true => rw [icomb_fill htx hty, icomb_skip htx]
    | false =>
      have hxn : sx = none := by
        rcases hx with h | h
        · exact h
        · rw [h] at htx; cases htx
      have hyn : sy = none := by
        rcases hy with h | h
        · exact h
        · rw [h] at hty; cases hty
      rw [hxn, hyn]

theorem icomb_swap {sx sy : Option Str}
    (hagree : truthy sx = true → truthy sy = true → sx = sy) (t : Option Str) :
    icomb (icomb t sx) sy = icomb (icomb t sy) sx := by
  cases htt : truthy t with
  | true => simp only [icomb_keep htt]
  | false =>
    cases htx : truthy sx with
    | true =>
      cases hty : truthy sy with
      | true => rw [hagree htx hty]
      | false => simp only [icomb_fill htt htx, icomb_skip hty]
    | false =>
      cases hty : truthy sy with
      | true => simp only [icomb_fill htt hty, icomb_skip htx]
      | false => simp only [icomb_skip htx, icomb_skip hty]

theorem projR_mergeInto (e r : Rec) : projR (mergeInto e r) = pmerge (projR e) r := by
  rw [mergeInto_eq]
  rfl

theorem keyOf_mergeInto (e r : Rec) : keyOf (mergeInto e r) = keyOf e := by
  rw [mergeInto_eq]
  rfl

theorem pmerge_base_comm {x y : Rec} (hx : recOk x) (hy : recOk y) (ha : idAgree x y) :
    pmerge (projR x) y = pmerge (projR y) x := by
  obtain ⟨hxs, hxe, hxi1, hxi2, hxi3⟩ := hx
  obtain ⟨hys, hye, hyi1, hyi2, hyi3⟩ := hy
  obtain ⟨ha1, ha2, ha3⟩ := ha
  simp only [pmerge, projR, PRec.mk.injEq]
  exact ⟨dcomb_base_comm pymin pymin_comm hxs hys,
    dcomb_base_comm pymax pymax_comm hxe hye,
    icomb_base_comm hxi1 hyi1 ha1,
    icomb_base_comm hxi2 hyi2 ha2,
    icomb_base_comm hxi3 hyi3 ha3⟩

theorem pmerge_swap {x y : Rec} (hx : recOk x) (hy : recOk y) (ha : idAgree x y)
    (p : PRec) : pmerge (pmerge p x) y = pmerge (pmerge p y) x := by
  obtain ⟨hxs, hxe, hxi1, hxi2, hxi3⟩ := hx
  obtain ⟨hys, hye, hyi1, hyi2, hyi3⟩ := hy
  obtain ⟨ha1, ha2, ha3⟩ := ha
  simp only [pmerge, PRec.mk.injEq]
  exact ⟨dcomb_swap pymin pymin_comm pymin_left_comm pymin_choice hxs hys _,
    dcomb_swap pymax pymax_comm pymax_left_comm pymax_choice hxe hye _,
    icomb_swap ha1 _, icomb_swap ha2 _, icomb_swap ha3 _⟩

theorem pstep_swap {x y : Rec} (hx : recOk x) (hy : recOk y)
    (ha : keyOf x = keyOf y → idAgree x y)
    (g : Str → Option PRec) : pstep (pstep g x) y = pstep (pstep g y) x := by
  funext k
  by_cases hkeq : keyOf x = keyOf y
  · have hagree := ha hkeq
    by_cases hk : k = keyOf y
    · subst hk
      have e1 : ∀ g' : Str → Option PRec,
          pstep g' y (keyOf y) =
            match g' (keyOf y) with
            | none => some (projR y)
            | some p => some (pmerge p y) := fun g' => by
        unfold pstep
        rw [if_pos rfl]
      have e2 : ∀ g' : Str → Option PRec,
          pstep g' x (keyOf y) =
            match g' (keyOf y) with
            | none => some (projR x)
            | some p => some (pmerge p x) := fun g' => by
        unfold pstep
        rw [if_pos hkeq.symm, hkeq]
      rw [e1 (pstep g x), e2 g, e2 (pstep g y), e1 g]
      cases hg : g (keyOf y) with
      | none =>
        dsimp only
        rw [pmerge_base_comm hx hy hagree]
      | some p =>
        dsimp only
        rw [pmerge_swap hx hy hagree]
    · have hkx : ¬k = keyOf x := by rw [hkeq]; exact hk
      unfold pstep
      simp only [if_neg hk, if_neg hkx]
  · have h2 : ¬keyOf y = keyOf x := fun h => hkeq h.symm
    unfold pstep
    by_cases hk1 : k = keyOf x
    · subst hk1
      simp [hkeq]
    · by_cases hk2 : k = keyOf y
      · subst hk2
        simp [h2]
      · simp [hk1, hk2]

theorem lookupA_append (s t : MState) (k : Str) :
    lookupA (s ++ t) k =
      match lookupA s k with
      | some r => some r
      | none => lookupA t k := by
  induction s with
  | nil => rfl
  | cons p s ih =>
    obtain ⟨k', r⟩ := p
    by_cases h : k' = k
    · simp [lookupA, h]
    · simp [lookupA, h, ih]

theorem lookupA_updateA (s : MState) (k0 k : Str) (f : Rec → Rec) :
    lookupA (updateA s k0 f) k =
      if k = k0 then (lookupA s k0).map f else lookupA s k := by
  induction s with
  | nil => simp [updateA, lookupA]
  | cons p s ih =>
    obtain ⟨k', r⟩ := p
    by_cases h : k' = k0
    · subst h
      by_cases hk : k = k'
      · subst hk
        simp [updateA, lookupA]
      · have hk2 : ¬k' = k := fun hh => hk hh.symm
        simp [updateA, lookupA, hk, hk2]
    · by_cases hk : k' = k
      · subst hk
        simp [updateA, lookupA, h]
      · simp [updateA, lookupA, h, hk, ih]

theorem containsA_iff (st : MState) (k : Str) :
    containsA st k = true ↔ k ∈ keysOf st := by
  induction st with
  | nil => simp [containsA, lookupA, keysOf]
  | cons p st ih =>
    obtain ⟨k', r⟩ := p
    simp only [containsA, lookupA, keysOf, List.map_cons, List.mem_cons] at ih ⊢
    by_cases h : k' = k
    · subst h
      simp
    · have h2 : ¬k = k' := fun hh => h hh.symm
      simp [h, h2, ih]

theorem gOf_mergeStep (st : MState) (r : Rec) :
    gOf (mergeStep st r) = pstep (gOf st) r := by
  funext k
  cases hc : containsA st (keyOf r) with
  | true =>
    obtain ⟨e, he⟩ : ∃ e, lookupA st (keyOf r) = some e := by
      unfold containsA at hc
      exact Option.isSome_iff_exists.mp hc
    have hst : mergeStep st r = updateA st (keyOf r) (fun e => mergeInto e r) := by
      simp [mergeStep, hc]
    rw [hst]
    unfold gOf pstep
    beta_reduce
    rw [lookupA_updateA]
    by_cases hk : k = keyOf r
    · rw [if_pos hk, if_pos hk, he]
      simp [projR_mergeInto]
    · rw [if_neg hk, if_neg hk]
  | false =>
    have hnone : lookupA st (keyOf r) = none := by
      unfold containsA at hc
      cases hl : lookupA st (keyOf r) with
      | none => rfl
      | some e => rw [hl] at hc; cases hc
    have hst : mergeStep st r = st ++ [(keyOf r, r)] := by
      simp [mergeStep, hc]
    rw [hst]
    unfold gOf pstep
    beta_reduce
    rw [lookupA_append]
    by_cases hk : k = keyOf r
    · subst hk
      rw [hnone]
      simp [lookupA]
    · have hk2 : ¬keyOf r = k := fun hh => hk hh.symm
      rw [if_neg hk]
      cases hl : lookupA st k with
      | none => simp [lookupA, hl, hk2]
      | some e => simp [lookupA, hl, hk2]

theorem gOf_foldl (l : List Rec) : ∀ st : MState,
    gOf (l.foldl mergeStep st) = l.foldl pstep (gOf st) := by
  induction l with
  | nil => intro st; rfl
  | cons r l ih =>
    intro st
    simp only [List.foldl_cons]
    rw [ih, gOf_mergeStep]

theorem keysOf_updateA (s : MState) (k : Str) (f : Rec → Rec) :
    keysOf (updateA s k f) = keysOf s := by
  induction s with
  | nil => rfl
  | cons p s ih =>
    obtain ⟨k', r⟩ := p
    by_cases h : k' = k
    · simp [updateA, keysOf, h]
    · simp only [updateA, keysOf, List.map_cons] at ih ⊢
      rw [if_neg h, List.map_cons, ih]

theorem updateA_consistent (s : MState) (r : Rec)
    (hs : ∀ p ∈ s, p.1 = keyOf p.2) :
    ∀ p ∈ updateA s (keyOf r) (fun e => mergeInto e r), p.1 = keyOf p.2 := by
  induction s with
  | nil => intro p hp; cases hp
  | cons q s ih =>
    obtain ⟨k', e⟩ := q
    intro p hp
    simp only [updateA] at hp
    by_cases h : k' = keyOf r
    · rw [if_pos h] at hp
      rcases List.mem_cons.mp hp with heq | hmem
      · subst heq
        have hke : k' = keyOf e := hs (k', e) (List.mem_cons_self _ _)
        simpa [keyOf_mergeInto] using hke
      · exact hs p (List.mem_cons_of_mem _ hmem)
    · rw [if_neg h] at hp
      rcases List.mem_cons.mp hp with heq | hmem
      · subst heq
        exact hs (k', e) (List.mem_cons_self _ _)
      · exact ih (fun q hq => hs q (List.mem_cons_of_mem _ hq)) p hmem

theorem goodState_mergeStep {st : MState} (h : goodState st) (r : Rec) :
    goodState (mergeStep st r) := by
  obtain ⟨hnd, hcons⟩ := h
  cases hc : containsA st (keyOf r) with
  | true =>
    have hst : mergeStep st r = updateA st (keyOf r) (fun e => mergeInto e r) := by
      simp [mergeStep, hc]
    rw [hst]
    refine ⟨?_, updateA_consistent st r hcons⟩
    rw [keysOf_updateA]
    exact hnd
  | false =>
    have hst : mergeStep st r = st ++ [(keyOf r, r)] := by
      simp [mergeStep, hc]
    rw [hst]
    constructor
    · have hnm : keyOf r ∉ keysOf st := by
        intro hm
        rw [← containsA_iff, hc] at hm
        cases hm
      have hkeys : keysOf (st ++ [(keyOf r, r)]) = keysOf st ++ [keyOf r] := by
        simp [keysOf]
      rw [hkeys, List.nodup_append]
      refine ⟨hnd, List.nodup_singleton _, ?_⟩
      intro x hx hy
      rw [List.mem_singleton] at hy
      subst hy
      exact hnm hx
    · intro p hp
      rcases List.mem_append.mp hp with hmem | hmem
      · exact hcons p hmem
      · rw [List.mem_singleton] at hmem
        subst hmem
        rfl

theorem goodState_foldl (l : List Rec) : ∀ st : MState, goodState st →
    goodState (l.foldl mergeStep st) := by
  induction l with
  | nil => intro st h; exact h
  | cons r l ih =>
    intro st h
    exact ih _ (goodState_mergeStep h r)

theorem map_proj_eq_keys_map (st : MState) (hnd : (keysOf st).Nodup) :
    st.map (fun p => (p.1, projR p.2)) =
      (keysOf st).map (fun k => (k, projOf st k)) := by
  induction st with
  | nil => rfl
  | cons p st ih =>
    obtain ⟨k, r⟩ := p
    have hnd2 : (k :: keysOf st).Nodup := by simpa [keysOf] using hnd
    have hnm : k ∉ keysOf st := (List.nodup_cons.mp hnd2).1
    have hndt : (keysOf st).Nodup := (List.nodup_cons.mp hnd2).2
    have hhead : projOf ((k, r) :: st) k = projR r := by
      simp [projOf, gOf, lookupA]
    have htail : ∀ k' ∈ keysOf st,
        projOf ((k, r) :: st) k' = projOf st k' := by
      intro k' hk'
      have hne : ¬k = k' := by
        intro hh
        subst hh
        exact hnm hk'
      simp [projOf, gOf, lookupA, hne]
    have hkc : keysOf ((k, r) :: st) = k :: keysOf st := rfl
    rw [List.map_cons, hkc, List.map_cons, hhead, ih hndt]
    congr 1
    apply List.map_congr_left
    intro k' hk'
    rw [htail k' hk']

theorem state_perm {st1 st2 : MState}
    (h1 : goodState st1) (h2 : goodState st2)
    (hg : gOf st1 = gOf st2) :
    (st1.map (fun p => (p.1, projR p.2))).Perm
      (st2.map (fun p => (p.1, projR p.2))) := by
  obtain ⟨hnd1, hc1⟩ := h1
  obtain ⟨hnd2, hc2⟩ := h2
  have hkeys : (keysOf st1).Perm (keysOf st2) := by
    rw [List.perm_ext_iff_of_nodup hnd1 hnd2]
    intro k
    rw [← containsA_iff, ← containsA_iff]
    have hk := congrFun hg k
    unfold gOf at hk
    unfold containsA
    cases h1l : lookupA st1 k with
    | none =>
      cases h2l : lookupA st2 k with
      | none => rfl
      | some e => rw [h1l, h2l] at hk; cases hk
    | some e =>
      cases h2l : lookupA st2 k with
      | none => rw [h1l, h2l] at hk; cases hk
      | some e2 => rfl
  have hfun : (fun k => (k, projOf st1 k)) = (fun k => (k, projOf st2 k)) := by
    funext k
    unfold projOf
    rw [hg]
  rw [map_proj_eq_keys_map st1 hnd1, map_proj_eq_keys_map st2 hnd2, hfun]
  exact hkeys.map _

/-- C1 (amended): `merge_client_records` is order-independent up to reordering
of the output, on the identity key and the reconciled fields, provided every
record's dates are fixed points of `normalize_date` (absent, already ISO, or
kept-unparseable — never the empty string), every identifier field is absent
or non-empty, and no two same-key records carry conflicting non-empty values
for the same identifier field: permuting the input permutes the per-record
tuples of identity key and reconciled fields. Unconditionally the claim is
false — see the counterexample theorem. -/
theorem c1_perm_invariant (l1 l2 : List Rec) (hperm : l1.Perm l2)
    (hok : ∀ r ∈ l1, recOk r)
    (hagree : ∀ x ∈ l1, ∀ y ∈ l1, keyOf x = keyOf y → idAgree x y) :
    ((merge_client_records l1).map projTuple).Perm
      ((merge_client_records l2).map projTuple) := by
  have hg : gOf (l1.foldl mergeStep []) = gOf (l2.foldl mergeStep []) := by
    rw [gOf_foldl, gOf_foldl]
    exact hperm.foldl_eq'
      (fun x hx y hy z =>
        pstep_swap (hok x hx) (hok y hy) (fun hk => hagree x hx y hy hk) z) _
  have hgood0 : goodState [] := by
    refine ⟨List.nodup_nil, ?_⟩
    intro p hp
    cases hp
  have hgood1 : goodState (l1.foldl mergeStep []) := goodState_foldl l1 [] hgood0
  have hgood2 : goodState (l2.foldl mergeStep []) := goodState_foldl l2 [] hgood0
  have hdecomp : ∀ st : MState, (∀ p ∈ st, p.1 = keyOf p.2) →
      (st.map Prod.snd).map projTuple = st.map (fun p => (p.1, projR p.2)) := by
    intro st hcons
    rw [List.map_map]
    apply List.map_congr_left
    intro p hp
    have hpk := hcons p hp
    simp [projTuple, Function.comp, hpk]
  simp only [merge_client_records]
  rw [hdecomp _ hgood1.2, hdecomp _ hgood2.2]
  exact state_perm hgood1 hgood2 hg

theorem c1_perm_invariant_witness :
    List.Perm [recQ1, recQ2] [recQ2, recQ1] ∧
    (∀ r ∈ [recQ1, recQ2], recOk r) ∧
    (∀ x ∈ [recQ1, recQ2], ∀ y ∈ [recQ1, recQ2],
      keyOf x = keyOf y → idAgree x y) ∧
    ((merge_client_records [recQ1, recQ2]).map projTuple).Perm
      ((merge_client_records [recQ2, recQ1]).map projTuple) :=
  ⟨List.Perm.swap recQ2 recQ1 [], by decide, by decide,
    c1_perm_invariant [recQ1, recQ2] [recQ2, recQ1]
      (List.Perm.swap recQ2 recQ1 []) (by decide) (by decide)⟩

end LobbyHarvest
